import Mathlib

/-!
Verification of the OpenClaw persistent hybrid memory index.

This file gives a shallow embedding of the memory subsystem of the
repository — the scope resolver and shared-context detector of the
memory tools (`createMemorySearchTool`), the SQL filter construction
(`buildSearchFilters`) together with the keyword/vector/hybrid search
pipeline of `PostgresMemoryIndexManager.search`, the `readFile` path
validation behind `memory_get`, the `lookupActors` query, and the
incremental indexer (`syncEntries` / `indexEntry` / `embedChunks` /
`runSync`) — and proves or refutes the specification's claims about
them.

Conventions of the embedding:
* JavaScript strings are Lean `String`s; `string | undefined` is
  `Option String`, with JS truthiness (`undefined` and `""` falsy)
  modelled by `strTruthy`.
* JS numbers carrying scores and weights are `Rat`; timestamps are
  `Int`.
* Postgres tables are lists of row structures; a SQL `WHERE` clause is
  a list of structured conditions evaluated row by row; `ORDER BY` is
  insertion sort by a boolean comparator; `LIMIT` is `List.take`.
* `randomUUID` is modelled by deterministic fresh identifiers (the
  claims only depend on the identifiers being present, never on their
  randomness).
* External semantics the store delegates to Postgres (full-text match
  and rank, cosine distance) and the embedding provider are parameters
  of the model, not re-implementations.
-/

namespace OpenClaw

/-! ## JavaScript string helpers

String primitives are re-implemented over `String.data` (character
lists) with JavaScript semantics — `trim`, `toLowerCase` (ASCII range,
which is all the code relies on), `startsWith`, `endsWith`, `split` —
so that every definition reduces in the kernel. -/

/-- The whitespace characters relevant to `String.prototype.trim` in
the inputs this code handles. -/
def jsWhitespaceChar (c : Char) : Bool :=
  c == ' ' || c == '\t' || c == '\n' || c == '\r'

/-- `String.prototype.trim`. -/
def jsTrim (s : String) : String :=
  ⟨((s.data.dropWhile jsWhitespaceChar).reverse.dropWhile jsWhitespaceChar).reverse⟩

/-- ASCII lowercasing of one character. -/
def lowerChar (c : Char) : Char :=
  if 'A' ≤ c && c ≤ 'Z' then Char.ofNat (c.toNat + 32) else c

/-- `String.prototype.toLowerCase` (ASCII range). -/
def jsToLower (s : String) : String := ⟨s.data.map lowerChar⟩

/-- `String.prototype.startsWith`. -/
def jsStartsWith (s p : String) : Bool := p.data.isPrefixOf s.data

/-- `String.prototype.endsWith`. -/
def jsEndsWith (s p : String) : Bool := p.data.reverse.isPrefixOf s.data.reverse

/-- JavaScript truthiness of a `string | undefined` value: `undefined`
and the empty string are falsy. -/
def strTruthy : Option String → Bool
  | none => false
  | some s => !(s == "")

theorem strTruthy_some (s : String) : strTruthy (some s) = !(s == "") := rfl

theorem strTruthy_none : strTruthy none = false := rfl

/-- The idiom `s?.trim() || undefined`: trim, and collapse an empty
result to `undefined`. -/
def optTrim : Option String → Option String
  | none => none
  | some s => if jsTrim s == "" then none else some (jsTrim s)

/-- JavaScript truthiness of a `number | undefined` value (`0` falsy). -/
def numTruthy : Option Int → Bool
  | none => false
  | some n => !(n == 0)

/-! ## Generic boolean-comparator insertion sort (the model of `ORDER BY`) -/

/-- Insert an element into a list, before the first element `b` with
`le a b`. -/
def insertSorted (le : α → α → Bool) (a : α) : List α → List α
  | [] => [a]
  | b :: l => if le a b then a :: b :: l else b :: insertSorted le a l

/-- Insertion sort by a boolean comparator. -/
def sortByBool (le : α → α → Bool) : List α → List α
  | [] => []
  | a :: l => insertSorted le a (sortByBool le l)

theorem mem_insertSorted (le : α → α → Bool) (a x : α) (l : List α) :
    x ∈ insertSorted le a l ↔ x = a ∨ x ∈ l := by
  induction l with
  | nil => simp [insertSorted]
  | cons b t ih =>
    simp only [insertSorted]
    split
    · simp [List.mem_cons]
    · simp only [List.mem_cons, ih]
      tauto

theorem mem_sortByBool (le : α → α → Bool) (x : α) (l : List α) :
    x ∈ sortByBool le l ↔ x ∈ l := by
  induction l with
  | nil => simp [sortByBool]
  | cons a t ih => simp [sortByBool, mem_insertSorted, ih]

theorem pairwise_insertSorted (le : α → α → Bool)
    (htot : ∀ a b, le a b = true ∨ le b a = true)
    (htrans : ∀ a b c, le a b = true → le b c = true → le a c = true)
    (a : α) (l : List α) (hl : l.Pairwise (fun x y => le x y = true)) :
    (insertSorted le a l).Pairwise (fun x y => le x y = true) := by
  induction l with
  | nil => simp [insertSorted]
  | cons b t ih =>
    simp only [insertSorted]
    rcases List.pairwise_cons.mp hl with ⟨hb, ht⟩
    split
    · rename_i hab
      refine List.pairwise_cons.mpr ⟨?_, hl⟩
      intro y hy
      rcases List.mem_cons.mp hy with rfl | hyt
      · exact hab
      · exact htrans a b y hab (hb y hyt)
    · rename_i hab
      have hba : le b a = true := by
        rcases htot a b with h | h
        · exact absurd h hab
        · exact h
      refine List.pairwise_cons.mpr ⟨?_, ih ht⟩
      intro y hy
      rcases (mem_insertSorted le a y t).mp hy with rfl | hyt
      · exact hba
      · exact hb y hyt

theorem pairwise_sortByBool (le : α → α → Bool)
    (htot : ∀ a b, le a b = true ∨ le b a = true)
    (htrans : ∀ a b c, le a b = true → le b c = true → le a c = true)
    (l : List α) :
    (sortByBool le l).Pairwise (fun x y => le x y = true) := by
  induction l with
  | nil => simp [sortByBool]
  | cons a t ih => exact pairwise_insertSorted le htot htrans a (sortByBool le t) ih

/-! ## Shared-context detection (`isSharedContextQuery`, tools/memory-search) -/

/-- The character class of the regex `\w` (and the complement used by
`\b`): ASCII letters, digits and underscore. -/
def isWordChar (c : Char) : Bool :=
  ('a' ≤ c && c ≤ 'z') || ('A' ≤ c && c ≤ 'Z') || ('0' ≤ c && c ≤ '9') || c == '_'

/-- A `\b` boundary holds to the left of a word character when the
preceding character (if any) is not a word character. -/
def boundaryBefore : Option Char → Bool
  | none => true
  | some c => !isWordChar c

/-- The token (all word characters) matches at the head of `cs` and is
followed by a `\b` boundary. -/
def tokenAt : List Char → List Char → Bool
  | cs, [] =>
    match cs with
    | [] => true
    | c :: _ => !isWordChar c
  | [], _ :: _ => false
  | c :: cs, t :: ts => c == t && tokenAt cs ts

/-- Search for a `\b token \b` regex match anywhere in the remaining
characters, given the previously scanned character. -/
def tokenSearch (tok : List Char) : Option Char → List Char → Bool
  | prev, [] => boundaryBefore prev && tokenAt [] tok
  | prev, c :: rest =>
    (boundaryBefore prev && tokenAt (c :: rest) tok) || tokenSearch tok (some c) rest

/-- `new RegExp("\\b" + tok + "\\b").test s` for a token made of word
characters. -/
def testWordToken (s tok : String) : Bool :=
  tokenSearch tok.data none s.data

/-- The shared-context token list of `isSharedContextQuery`. -/
def sharedContextTokens : List String :=
  ["we", "our", "us", "team", "group", "everyone", "anyone", "all",
   "channel", "server", "thread", "guild", "room", "together", "others", "people"]

/-- Translation of `isSharedContextQuery` (tools/memory-search): the
query is lowercased and each token is tested with a case-insensitive
word-boundary regex. -/
def isSharedContextQuery (query : String) : Bool :=
  sharedContextTokens.any (fun tok => testWordToken (jsToLower query) tok)

/-! ## Scope auto-resolution (`createMemorySearchTool` execute) -/

inductive Scope
  | session
  | actor
  | global
deriving DecidableEq, Repr

/-- The ambient actor context computed by `resolveActorContext` from the
session store entry. -/
structure ActorContext where
  actorId : Option String := none
  actorType : Option String := none
  chatType : Option String := none
deriving DecidableEq, Repr

structure ResolvedScope where
  scope : Scope
  actorId : Option String
  actorType : Option String
deriving DecidableEq, Repr

/-- Translation of the scope-resolution block of the `memory_search`
tool: `isGroupChat`, `autoActorScope`, `resolvedScope`,
`resolvedActorId`, `resolvedActorType`. -/
def resolveSearchScope (sessionScope : Option Scope) (actorId actorType : Option String)
    (ctx : ActorContext) (query : String) : ResolvedScope :=
  let sharedContext := isSharedContextQuery query
  let isGroupChat := strTruthy ctx.chatType && !(ctx.chatType == some "direct")
  let autoActorScope :=
    sessionScope.isNone && !(strTruthy actorId) && !(strTruthy actorType) &&
      strTruthy ctx.actorId && !isGroupChat && !sharedContext
  let scope :=
    sessionScope.getD
      (if autoActorScope then Scope.actor
       else if sharedContext && !isGroupChat then Scope.global
       else Scope.session)
  let resolvedActorId :=
    match actorId with
    | some v => some v
    | none => if autoActorScope then ctx.actorId else none
  let resolvedActorType :=
    match actorType with
    | some v => some v
    | none => if autoActorScope then ctx.actorType else none
  { scope := scope, actorId := resolvedActorId, actorType := resolvedActorType }

/-! ## The `memory_chunks` table and `buildSearchFilters` -/

inductive Source
  | memory
  | sessions
deriving DecidableEq, Repr

inductive Mode
  | hybrid
  | vector
  | keyword
deriving DecidableEq, Repr

/-- A row of `memory_chunks` as written by this indexer (the nullable
columns that the indexer always populates are non-optional here). -/
structure ChunkRow where
  id : String
  path : String
  source : Source
  sessionKey : Option String
  role : String
  actorType : String
  actorId : String
  messageId : Option String
  messageCreatedAt : Option Int
  startLine : Int
  endLine : Int
  hash : String
  model : String
  text : String
  embedding : List Rat
  createdAt : Option Int
  updatedAt : Int
deriving DecidableEq, Repr

/-- Parameters of `buildSearchFilters`. -/
structure FilterParams where
  sessionKey : Option String := none
  sessionScope : Option Scope := none
  actorId : Option String := none
  actorType : Option String := none
  role : Option String := none
  updatedAfter : Option Int := none
  updatedBefore : Option Int := none
deriving DecidableEq, Repr

/-- One SQL clause emitted by `buildSearchFilters`. -/
inductive FilterCond
  | sessionOnly (key : String)
  | actorScope (actorId : Option String) (actorType : Option String)
  | actorIdEq (v : String)
  | actorTypeEq (v : String)
  | roleEq (v : String)
  | timeAfter (t : Int)
  | timeBefore (t : Int)
deriving DecidableEq, Repr

/-- Translation of `buildSearchFilters`: the generated SQL clause list,
kept structured instead of rendered to text. -/
def buildSearchFilters (p : FilterParams) : List FilterCond :=
  let scope := p.sessionScope.getD Scope.session
  let aId := optTrim p.actorId
  let aTy := optTrim p.actorType
  let rl := optTrim p.role
  (if scope == Scope.session && strTruthy p.sessionKey then
     [FilterCond.sessionOnly (p.sessionKey.getD "")]
   else []) ++
  (if scope == Scope.actor && (aId.isSome || aTy.isSome) then
     [FilterCond.actorScope aId aTy]
   else
     (match aId with | some v => [FilterCond.actorIdEq v] | none => []) ++
     (match aTy with | some v => [FilterCond.actorTypeEq v] | none => [])) ++
  (match rl with | some v => [FilterCond.roleEq v] | none => []) ++
  (match p.updatedAfter with | some t => [FilterCond.timeAfter t] | none => []) ++
  (match p.updatedBefore with | some t => [FilterCond.timeBefore t] | none => [])

/-- Evaluation of one emitted clause against a chunk row
(`COALESCE(created_at, updated_at)` for the time clauses; the
actor-scope clause is `source <> 'sessions' OR (actor columns match)`). -/
def condHolds (c : FilterCond) (row : ChunkRow) : Bool :=
  match c with
  | FilterCond.sessionOnly k => row.source == Source.sessions && row.sessionKey == some k
  | FilterCond.actorScope aId aTy =>
    !(row.source == Source.sessions) ||
      (aId.all (fun v => row.actorId == v) && aTy.all (fun v => row.actorType == v))
  | FilterCond.actorIdEq v => row.actorId == v
  | FilterCond.actorTypeEq v => row.actorType == v
  | FilterCond.roleEq v => row.role == v
  | FilterCond.timeAfter t => decide (t ≤ row.createdAt.getD row.updatedAt)
  | FilterCond.timeBefore t => decide (row.createdAt.getD row.updatedAt ≤ t)

/-- A row satisfies the whole emitted `WHERE` fragment. -/
def filtersHold (cs : List FilterCond) (row : ChunkRow) : Bool :=
  cs.all (fun c => condHolds c row)

/-! ## The search pipeline (`search`, `searchKeyword`, `searchVector`) -/

/-- Store-side and provider-side semantics the search pipeline depends
on: the chunk table contents, Postgres full-text matching/ranking
(`plainto_tsquery` / `ts_rank_cd`), the pgvector cosine distance
operator, snippet truncation (`truncateUtf16Safe` at 700 chars) and the
query embedder. -/
structure SearchEnv where
  chunks : List ChunkRow
  tsMatch : String → String → Bool
  tsRank : String → String → Rat
  cosDist : List Rat → List Rat → Rat
  snip : String → String
  embedQuery : String → List Rat
  model : String
  sources : List Source

/-- A search result row (`MemorySearchResult` plus the `id`,
`textScore` and vector-score fields that the internal result lists
carry). -/
structure RawResult where
  id : String
  path : String
  startLine : Int
  endLine : Int
  score : Rat
  textScore : Rat := 0
  vectorScore : Rat := 0
  snippet : String
  source : Source
deriving DecidableEq, Repr

/-- Translation of `searchKeyword`: full-text match plus model, source
and filter clauses; ordered by rank descending; limited. -/
def searchKeyword (env : SearchEnv) (query : String) (limit : Int) (p : FilterParams) :
    List RawResult :=
  if limit ≤ 0 then []
  else
    let conds := buildSearchFilters p
    let matched := env.chunks.filter (fun row =>
      env.tsMatch query row.text && row.model == env.model &&
        env.sources.contains row.source && filtersHold conds row)
    let ordered := sortByBool (fun a b => decide (env.tsRank query b.text ≤ env.tsRank query a.text)) matched
    (ordered.take limit.toNat).map (fun row =>
      { id := row.id, path := row.path, startLine := row.startLine, endLine := row.endLine,
        score := env.tsRank query row.text, textScore := env.tsRank query row.text,
        snippet := env.snip row.text, source := row.source })

/-- Translation of `searchVector`: model, source and filter clauses;
ordered by cosine distance ascending; the score is `1 - distance`. -/
def searchVector (env : SearchEnv) (queryVec : List Rat) (limit : Int) (p : FilterParams) :
    List RawResult :=
  if queryVec.isEmpty then []
  else
    let conds := buildSearchFilters p
    let matched := env.chunks.filter (fun row =>
      row.model == env.model && env.sources.contains row.source && filtersHold conds row)
    let ordered := sortByBool
      (fun a b => decide (env.cosDist a.embedding queryVec ≤ env.cosDist b.embedding queryVec))
      matched
    (ordered.take limit.toNat).map (fun row =>
      { id := row.id, path := row.path, startLine := row.startLine, endLine := row.endLine,
        score := 1 - env.cosDist row.embedding queryVec,
        vectorScore := 1 - env.cosDist row.embedding queryVec,
        snippet := env.snip row.text, source := row.source })

/-- Modelled from the spec: `mergeHybridResults` lives in
`memory/hybrid.ts`, which is not among the provided sources. Spec §4.9
step 4: for each chunk id seen in either list the fused score is
`vector_weight × v_score + text_weight × t_score` with missing scores
treated as 0; the fused list is sorted by score descending with ties
broken by vector score and then by lexical rank (position in the
keyword list). -/
def mergeHybridResults (vec kw : List RawResult) (vw tw : Rat) : List RawResult :=
  let vecIds := vec.map (fun e => e.id)
  let ids := vecIds ++ (kw.map (fun e => e.id)).filter (fun i => !vecIds.contains i)
  let fused := ids.filterMap (fun i =>
    match vec.find? (fun e => e.id == i), kw.find? (fun e => e.id == i) with
    | some v, some t =>
      some { v with
              score := vw * v.vectorScore + tw * t.textScore
              textScore := t.textScore
              vectorScore := v.vectorScore }
    | some v, none =>
      some { v with
              score := vw * v.vectorScore
              textScore := 0
              vectorScore := v.vectorScore }
    | none, some t =>
      some { t with score := tw * t.textScore, vectorScore := 0 }
    | none, none => none)
  let lexRank := fun (e : RawResult) => (kw.findIdx? (fun k => k.id == e.id)).getD kw.length
  sortByBool (fun a b =>
    decide (b.score < a.score) ||
      (a.score == b.score &&
        (decide (b.vectorScore < a.vectorScore) ||
          (a.vectorScore == b.vectorScore && decide (lexRank a ≤ lexRank b))))) fused

/-- The query-time settings resolved from configuration
(`settings.query` in the manager). -/
structure HybridSettings where
  enabled : Bool
  candidateMultiplier : Rat
  vectorWeight : Rat
  textWeight : Rat
deriving Repr

structure QuerySettings where
  minScore : Rat
  maxResults : Rat
  hybrid : HybridSettings
deriving Repr

/-- The optional per-call overrides of `search`. -/
structure SearchOpts where
  maxResults : Option Rat := none
  minScore : Option Rat := none
  sessionKey : Option String := none
  sessionScope : Option Scope := none
  actorId : Option String := none
  actorType : Option String := none
  role : Option String := none
  mode : Option Mode := none
  updatedAfter : Option Int := none
  updatedBefore : Option Int := none
deriving Repr

/-- Translation of the candidate computation in `search`:
`Math.min(200, Math.max(1, Math.floor(maxResults × candidateMultiplier)))`. -/
def searchCandidates (maxResults mult : Rat) : Int :=
  min 200 (max 1 ⌊maxResults * mult⌋)

/-- `Array.prototype.slice(0, m)` for a JS number `m` (truncation
toward zero; a negative end counts from the end of the array). -/
def jsSliceEnd (m : Rat) (l : List α) : List α :=
  if 0 ≤ m then l.take (Int.toNat ⌊m⌋)
  else l.take (Int.toNat ((l.length : Int) + ⌈m⌉))

/-- The filter-parameter record `search` hands to `searchKeyword` /
`searchVector` (lines 300-304: trimming of the key and the actor/role
overrides, scope defaulting to `session`). -/
def searchFilterParams (opts : SearchOpts) : FilterParams :=
  { sessionKey := optTrim opts.sessionKey,
    sessionScope := some (opts.sessionScope.getD Scope.session),
    actorId := optTrim opts.actorId,
    actorType := optTrim opts.actorType,
    role := optTrim opts.role,
    updatedAfter := opts.updatedAfter,
    updatedBefore := opts.updatedBefore }

/-- The mode resolved in `search`:
`opts.mode ?? (hybrid.enabled ? "hybrid" : "vector")`. -/
def resolvedSearchMode (qs : QuerySettings) (opts : SearchOpts) : Mode :=
  opts.mode.getD (if qs.hybrid.enabled then Mode.hybrid else Mode.vector)

/-- The candidate limit `search` hands to both store queries. -/
def searchLimit (qs : QuerySettings) (opts : SearchOpts) : Int :=
  searchCandidates (opts.maxResults.getD qs.maxResults) qs.hybrid.candidateMultiplier

/-- The `keywordResults` local of `search` (keyword query skipped in
vector mode or when hybrid is disabled). -/
def searchKeywordResults (env : SearchEnv) (qs : QuerySettings) (query : String)
    (opts : SearchOpts) : List RawResult :=
  if !(resolvedSearchMode qs opts == Mode.vector) && qs.hybrid.enabled then
    searchKeyword env (jsTrim query) (searchLimit qs opts) (searchFilterParams opts)
  else []

/-- The `queryVec` local of `search` (no embedding in keyword mode). -/
def searchQueryVec (env : SearchEnv) (qs : QuerySettings) (query : String)
    (opts : SearchOpts) : List Rat :=
  if !(resolvedSearchMode qs opts == Mode.keyword) then env.embedQuery (jsTrim query) else []

/-- The `vectorResults` local of `search` (vector query skipped in
keyword mode and when the query embedding has no non-zero component). -/
def searchVectorResults (env : SearchEnv) (qs : QuerySettings) (query : String)
    (opts : SearchOpts) : List RawResult :=
  if !(resolvedSearchMode qs opts == Mode.keyword) &&
      (searchQueryVec env qs query opts).any (fun v => !(v == 0)) then
    searchVector env (searchQueryVec env qs query opts) (searchLimit qs opts)
      (searchFilterParams opts)
  else []

/-- Translation of `PostgresMemoryIndexManager.search` (the fire-and-
forget warm-up and dirty-sync kicks have no effect on the returned
list and are omitted; store query failures caught by `.catch(() => [])`
are not injected). -/
def search (env : SearchEnv) (qs : QuerySettings) (query : String) (opts : SearchOpts) :
    List RawResult :=
  if jsTrim query == "" then []
  else
    let minScore := opts.minScore.getD qs.minScore
    let maxResults := opts.maxResults.getD qs.maxResults
    let mode := resolvedSearchMode qs opts
    let keywordResults := searchKeywordResults env qs query opts
    let vectorResults := searchVectorResults env qs query opts
    if mode == Mode.keyword then
      jsSliceEnd maxResults (keywordResults.filter (fun e => decide (minScore ≤ e.score)))
    else if mode == Mode.vector || !qs.hybrid.enabled then
      jsSliceEnd maxResults (vectorResults.filter (fun e => decide (minScore ≤ e.score)))
    else
      let merged := mergeHybridResults vectorResults keywordResults
        qs.hybrid.vectorWeight qs.hybrid.textWeight
      jsSliceEnd maxResults (merged.filter (fun e =>
        decide (minScore ≤ e.score) &&
          (e.source == Source.memory || e.source == Source.sessions)))

/-! ## Soundness lemmas for the search pipeline -/

theorem jsSliceEnd_subset (m : Rat) (l : List α) : jsSliceEnd m l ⊆ l := by
  unfold jsSliceEnd
  split <;> exact List.take_subset _ _

theorem filtersHold_of_mem (cs : List FilterCond) (row : ChunkRow)
    (h : filtersHold cs row = true) (c : FilterCond) (hc : c ∈ cs) :
    condHolds c row = true :=
  List.all_eq_true.mp h c hc

theorem searchKeyword_sound (env : SearchEnv) (q : String) (limit : Int) (p : FilterParams) :
    ∀ r ∈ searchKeyword env q limit p,
      ∃ row, row ∈ env.chunks ∧ filtersHold (buildSearchFilters p) row = true ∧
        r.id = row.id ∧ r.source = row.source := by
  intro r hr
  unfold searchKeyword at hr
  split at hr
  · simp at hr
  · obtain ⟨row, hrow, hmap⟩ := List.mem_map.mp hr
    have h1 := List.take_subset _ _ hrow
    have h2 := (mem_sortByBool _ _ _).mp h1
    have h3 := List.mem_filter.mp h2
    have h4 := h3.2
    simp only [Bool.and_eq_true] at h4
    exact ⟨row, h3.1, h4.2, by rw [← hmap], by rw [← hmap]⟩

theorem searchVector_sound (env : SearchEnv) (qv : List Rat) (limit : Int) (p : FilterParams) :
    ∀ r ∈ searchVector env qv limit p,
      ∃ row, row ∈ env.chunks ∧ filtersHold (buildSearchFilters p) row = true ∧
        r.id = row.id ∧ r.source = row.source := by
  intro r hr
  unfold searchVector at hr
  split at hr
  · simp at hr
  · obtain ⟨row, hrow, hmap⟩ := List.mem_map.mp hr
    have h1 := List.take_subset _ _ hrow
    have h2 := (mem_sortByBool _ _ _).mp h1
    have h3 := List.mem_filter.mp h2
    have h4 := h3.2
    simp only [Bool.and_eq_true] at h4
    exact ⟨row, h3.1, h4.2, by rw [← hmap], by rw [← hmap]⟩

theorem mergeHybridResults_sound (vec kw : List RawResult) (vw tw : Rat) :
    ∀ e ∈ mergeHybridResults vec kw vw tw,
      (∃ v, v ∈ vec ∧ e.id = v.id ∧ e.source = v.source) ∨
        (∃ t, t ∈ kw ∧ e.id = t.id ∧ e.source = t.source) := by
  intro e he
  unfold mergeHybridResults at he
  have h1 := (mem_sortByBool _ _ _).mp he
  obtain ⟨i, _, hfe⟩ := List.mem_filterMap.mp h1
  cases hv : vec.find? (fun x => x.id == i) with
  | some v =>
    cases ht : kw.find? (fun x => x.id == i) with
    | some t =>
      rw [hv, ht] at hfe
      simp only [Option.some.injEq] at hfe
      exact Or.inl ⟨v, List.mem_of_find?_eq_some hv, by rw [← hfe], by rw [← hfe]⟩
    | none =>
      rw [hv, ht] at hfe
      simp only [Option.some.injEq] at hfe
      exact Or.inl ⟨v, List.mem_of_find?_eq_some hv, by rw [← hfe], by rw [← hfe]⟩
  | none =>
    cases ht : kw.find? (fun x => x.id == i) with
    | some t =>
      rw [hv, ht] at hfe
      simp only [Option.some.injEq] at hfe
      exact Or.inr ⟨t, List.mem_of_find?_eq_some ht, by rw [← hfe], by rw [← hfe]⟩
    | none =>
      rw [hv, ht] at hfe
      simp at hfe

theorem searchKeywordResults_sound (env : SearchEnv) (qs : QuerySettings) (query : String)
    (opts : SearchOpts) :
    ∀ r ∈ searchKeywordResults env qs query opts,
      ∃ row, row ∈ env.chunks ∧
        filtersHold (buildSearchFilters (searchFilterParams opts)) row = true ∧
        r.id = row.id ∧ r.source = row.source := by
  intro r hr
  unfold searchKeywordResults at hr
  split at hr
  · exact searchKeyword_sound _ _ _ _ r hr
  · simp at hr

theorem searchVectorResults_sound (env : SearchEnv) (qs : QuerySettings) (query : String)
    (opts : SearchOpts) :
    ∀ r ∈ searchVectorResults env qs query opts,
      ∃ row, row ∈ env.chunks ∧
        filtersHold (buildSearchFilters (searchFilterParams opts)) row = true ∧
        r.id = row.id ∧ r.source = row.source := by
  intro r hr
  unfold searchVectorResults at hr
  split at hr
  · exact searchVector_sound _ _ _ _ r hr
  · simp at hr

/-- Every search result originates in a chunk row of the store that
satisfies the full filter clause list built from the call's options. -/
theorem search_sound (env : SearchEnv) (qs : QuerySettings) (query : String) (opts : SearchOpts) :
    ∀ r ∈ search env qs query opts,
      ∃ row, row ∈ env.chunks ∧
        filtersHold (buildSearchFilters (searchFilterParams opts)) row = true ∧
        r.id = row.id ∧ r.source = row.source := by
  intro r hr
  unfold search at hr
  dsimp only at hr
  split at hr
  · simp at hr
  · split at hr
    · exact searchKeywordResults_sound _ _ _ _ r
        (List.mem_of_mem_filter (jsSliceEnd_subset _ _ hr))
    · split at hr
      · exact searchVectorResults_sound _ _ _ _ r
          (List.mem_of_mem_filter (jsSliceEnd_subset _ _ hr))
      · have h2 := List.mem_of_mem_filter (jsSliceEnd_subset _ _ hr)
        have h3 := mergeHybridResults_sound _ _ _ _ r h2
        rcases h3 with ⟨v, hv, hid, hsrc⟩ | ⟨t, ht, hid, hsrc⟩
        · obtain ⟨row, hm, hf, hi, hs⟩ := searchVectorResults_sound _ _ _ _ v hv
          exact ⟨row, hm, hf, by rw [hid, hi], by rw [hsrc, hs]⟩
        · obtain ⟨row, hm, hf, hi, hs⟩ := searchKeywordResults_sound _ _ _ _ t ht
          exact ⟨row, hm, hf, by rw [hid, hi], by rw [hsrc, hs]⟩

theorem sessionOnly_mem_buildSearchFilters (p : FilterParams)
    (hscope : p.sessionScope.getD Scope.session = Scope.session)
    (hkey : strTruthy p.sessionKey = true) :
    FilterCond.sessionOnly (p.sessionKey.getD "") ∈ buildSearchFilters p := by
  unfold buildSearchFilters
  simp [hscope, hkey]

theorem filtersHold_source_key_blind (p : FilterParams)
    (hscope : p.sessionScope.getD Scope.session = Scope.session)
    (hkey : strTruthy p.sessionKey = false)
    (row : ChunkRow) (s : Source) (k : Option String) :
    filtersHold (buildSearchFilters p) { row with source := s, sessionKey := k } =
      filtersHold (buildSearchFilters p) row := by
  unfold buildSearchFilters
  dsimp only
  rw [hscope, hkey]
  cases hA : optTrim p.actorId <;> cases hB : optTrim p.actorType <;>
    cases hC : optTrim p.role <;> cases hD : p.updatedAfter <;>
    cases hE : p.updatedBefore <;>
    simp [filtersHold, condHolds]

/-! ## Claim theorems about scoping and search -/

/-- C1 (privacy invariant): for a `search` call with
`sessionScope = session` (explicitly or by default) and a trimmed,
non-empty ambient session key `K`, every returned row comes from a
stored chunk with `source = 'sessions'` and `session_key = K`; in
particular no result has `source = 'memory'` and none has a different
session key. -/
theorem session_scope_privacy (env : SearchEnv) (qs : QuerySettings) (query : String)
    (opts : SearchOpts) (K : String)
    (hscope : opts.sessionScope = none ∨ opts.sessionScope = some Scope.session)
    (hkey : opts.sessionKey = some K) (htrim : jsTrim K = K) (hne : K ≠ "") :
    ∀ r ∈ search env qs query opts,
      r.source = Source.sessions ∧
        ∃ row, row ∈ env.chunks ∧ row.id = r.id ∧ row.source = Source.sessions ∧
          row.sessionKey = some K := by
  intro r hr
  obtain ⟨row, hmem, hf, hid, hsrc⟩ := search_sound env qs query opts r hr
  have hpk : (searchFilterParams opts).sessionKey = some K := by
    simp [searchFilterParams, hkey, optTrim, htrim, hne]
  have hps : (searchFilterParams opts).sessionScope.getD Scope.session = Scope.session := by
    rcases hscope with h | h <;> simp [searchFilterParams, h]
  have htk : strTruthy (searchFilterParams opts).sessionKey = true := by
    rw [hpk]
    simp [strTruthy, hne]
  have hmemc := sessionOnly_mem_buildSearchFilters _ hps htk
  rw [hpk] at hmemc
  simp only [Option.getD_some] at hmemc
  have hc := filtersHold_of_mem _ _ hf _ hmemc
  simp only [condHolds, Bool.and_eq_true, beq_iff_eq] at hc
  exact ⟨by rw [hsrc, hc.1], row, hmem, hid.symm, hc.1, hc.2⟩

/-- C2: when `search` resolves `sessionScope = session` (also the
default) but the ambient session key is absent, empty or
whitespace-only, `buildSearchFilters` emits no `source` and no
`session_key` restriction — whether a row is a candidate does not
depend on its `source` or `session_key` — and the session-scope
exclusion clause is emitted exactly when a non-empty trimmed key is
present. -/
theorem missing_session_key_disables_privacy_filter (opts : SearchOpts)
    (hscope : opts.sessionScope = none ∨ opts.sessionScope = some Scope.session)
    (hkey : optTrim opts.sessionKey = none) :
    (∀ (row : ChunkRow) (s : Source) (k : Option String),
        filtersHold (buildSearchFilters (searchFilterParams opts))
            { row with source := s, sessionKey := k } =
          filtersHold (buildSearchFilters (searchFilterParams opts)) row) ∧
    (∀ K : String, jsTrim K ≠ "" →
        FilterCond.sessionOnly (jsTrim K) ∈
          buildSearchFilters (searchFilterParams { opts with sessionKey := some K })) := by
  constructor
  · intro row s k
    refine filtersHold_source_key_blind _ ?_ ?_ row s k
    · rcases hscope with h | h <;> simp [searchFilterParams, h]
    · simp [searchFilterParams, hkey, strTruthy]
  · intro K hK
    have hpk : (searchFilterParams { opts with sessionKey := some K }).sessionKey =
        some (jsTrim K) := by
      simp [searchFilterParams, optTrim, hK]
    have hps : (searchFilterParams { opts with sessionKey := some K }).sessionScope.getD
        Scope.session = Scope.session := by
      rcases hscope with h | h <;> simp [searchFilterParams, h]
    have htk : strTruthy (searchFilterParams { opts with sessionKey := some K }).sessionKey =
        true := by
      rw [hpk]
      simp [strTruthy, hK]
    have := sessionOnly_mem_buildSearchFilters _ hps htk
    rw [hpk] at this
    simpa using this

/-- The `isGroupChat` local of the tool, over the ambient context:
`actorContext.chatType && actorContext.chatType !== "direct"` — falsy
when the chat type is absent, empty, or `"direct"`. -/
def isGroupChatCtx (ctx : ActorContext) : Bool :=
  strTruthy ctx.chatType && !(ctx.chatType == some "direct")

/-- C3 (counterexample to the claim as stated): with the ambient actor
known, no shared-context token, and the ambient chat type absent — so
the chat is not known to be direct and the claim's decision table puts
this context in its `otherwise` row, demanding scope `session` with no
actor id — the code resolves scope `actor` with the ambient actor id. -/
theorem scope_auto_resolution_counterexample :
    isSharedContextQuery "what did I say yesterday?" = false ∧
    resolveSearchScope none none none
        { actorId := some "tg:+1234", actorType := some "human", chatType := none }
        "what did I say yesterday?" =
      { scope := Scope.actor, actorId := some "tg:+1234", actorType := some "human" } ∧
    resolveSearchScope none none none
        { actorId := some "tg:+1234", actorType := some "human", chatType := none }
        "what did I say yesterday?" ≠
      { scope := Scope.session, actorId := none, actorType := none } := by
  refine ⟨by decide, by decide, by decide⟩

/-- C3 (amended): with no explicit `sessionScope`, `actorId` or
`actorType` override, the resolved scope follows the decision table
with the first row's "the chat is direct" condition read as "the chat
is not a group chat" (`isGroupChat` falsy — chat type absent, empty,
or `direct`): `actor` with the ambient actor id when the actor is
known, the chat is not a group chat and the query has no
shared-context token; `global` (or `session` in a group chat) with no
actor id when the query has a shared-context token; `session` with no
actor id otherwise. -/
theorem scope_auto_resolution_amended (ctx : ActorContext) (query : String) :
    (strTruthy ctx.actorId = true → isGroupChatCtx ctx = false →
        isSharedContextQuery query = false →
      resolveSearchScope none none none ctx query =
        { scope := Scope.actor, actorId := ctx.actorId, actorType := ctx.actorType }) ∧
    (isSharedContextQuery query = true →
      (resolveSearchScope none none none ctx query).scope =
          (if isGroupChatCtx ctx = true then Scope.session else Scope.global) ∧
        (resolveSearchScope none none none ctx query).actorId = none) ∧
    (¬(strTruthy ctx.actorId = true ∧ isGroupChatCtx ctx = false) →
        isSharedContextQuery query = false →
      resolveSearchScope none none none ctx query =
        { scope := Scope.session, actorId := none, actorType := none }) := by
  refine ⟨?_, ?_, ?_⟩
  · intro ha hg hsh
    have hg' : (strTruthy ctx.chatType && !(ctx.chatType == some "direct")) = false := hg
    simp [resolveSearchScope, ha, hg', hsh, strTruthy_none]
  · intro hsh
    cases hg : isGroupChatCtx ctx with
    | false =>
      have hg' : (strTruthy ctx.chatType && !(ctx.chatType == some "direct")) = false := hg
      simp [resolveSearchScope, hsh, hg, hg', strTruthy_none]
    | true =>
      have hg' : (strTruthy ctx.chatType && !(ctx.chatType == some "direct")) = true := hg
      simp [resolveSearchScope, hsh, hg, hg', strTruthy_none]
  · intro hcomb hsh
    by_cases ha : strTruthy ctx.actorId = true
    · have hg : isGroupChatCtx ctx = true := by
        cases h : isGroupChatCtx ctx
        · exact absurd ⟨ha, h⟩ hcomb
        · rfl
      have hg' : (strTruthy ctx.chatType && !(ctx.chatType == some "direct")) = true := hg
      simp [resolveSearchScope, ha, hsh, hg', strTruthy_none]
    · have ha' : strTruthy ctx.actorId = false := by
        cases h : strTruthy ctx.actorId
        · rfl
        · exact absurd h ha
      simp [resolveSearchScope, ha', hsh, strTruthy_none]

/-- C9 (candidate clamp): the candidate limit `search` hands to the
keyword and vector store queries is
`min(200, max(1, floor(maxResults × candidateMultiplier)))`, hence
always between 1 and 200. -/
theorem candidate_limit_clamp (qs : QuerySettings) (opts : SearchOpts) :
    searchLimit qs opts =
        min 200 (max 1 ⌊(opts.maxResults.getD qs.maxResults) * qs.hybrid.candidateMultiplier⌋) ∧
    1 ≤ searchLimit qs opts ∧ searchLimit qs opts ≤ 200 := by
  refine ⟨rfl, ?_, ?_⟩
  · simp only [searchLimit, searchCandidates]
    exact le_min (by norm_num) (le_max_left 1 _)
  · simp only [searchLimit, searchCandidates]
    exact min_le_left _ _

theorem jsSliceEnd_nil (m : Rat) : jsSliceEnd m ([] : List α) = [] := by
  unfold jsSliceEnd
  split <;> simp

/-- With an empty vector list, every fused entry is a keyword entry
rescored by the text weight. -/
theorem mergeHybridResults_nil_vec (kw : List RawResult) (vw tw : Rat) :
    ∀ e ∈ mergeHybridResults [] kw vw tw,
      ∃ t, t ∈ kw ∧ e = { t with score := tw * t.textScore, vectorScore := 0 } := by
  intro e he
  unfold mergeHybridResults at he
  have h1 := (mem_sortByBool _ _ _).mp he
  obtain ⟨i, _, hfe⟩ := List.mem_filterMap.mp h1
  rw [show (List.find? (fun x => x.id == i) ([] : List RawResult)) = none from rfl] at hfe
  cases ht : kw.find? (fun x => x.id == i) with
  | some t =>
    rw [ht] at hfe
    simp only [Option.some.injEq] at hfe
    exact ⟨t, List.mem_of_find?_eq_some ht, hfe.symm⟩
  | none =>
    rw [ht] at hfe
    simp at hfe

theorem searchVectorResults_of_zero (env : SearchEnv) (qs : QuerySettings) (query : String)
    (opts : SearchOpts)
    (hzero : (env.embedQuery (jsTrim query)).any (fun v => !(v == 0)) = false) :
    searchVectorResults env qs query opts = [] := by
  unfold searchVectorResults searchQueryVec
  cases h : resolvedSearchMode qs opts == Mode.keyword <;> simp [h, hzero]

/-- C7 (zero-embedding fallback, amended): when the query embedding is
all-zero, the vector store query is skipped; in hybrid mode the
returned results are exactly the keyword candidates rescored by
`textWeight` (fused with an empty vector list), min-score filtered and
truncated; in vector mode the result is empty (no keyword fallback). -/
theorem zero_embedding_keyword_fallback (env : SearchEnv) (qs : QuerySettings) (query : String)
    (opts : SearchOpts)
    (hq : jsTrim query ≠ "")
    (hzero : (env.embedQuery (jsTrim query)).any (fun v => !(v == 0)) = false) :
    (resolvedSearchMode qs opts = Mode.vector → search env qs query opts = []) ∧
    (resolvedSearchMode qs opts = Mode.hybrid → qs.hybrid.enabled = true →
      search env qs query opts =
        jsSliceEnd (opts.maxResults.getD qs.maxResults)
          ((mergeHybridResults [] (searchKeywordResults env qs query opts)
              qs.hybrid.vectorWeight qs.hybrid.textWeight).filter
            (fun e => decide ((opts.minScore.getD qs.minScore) ≤ e.score) &&
              (e.source == Source.memory || e.source == Source.sessions))) ∧
      ∀ r ∈ search env qs query opts,
        ∃ k, k ∈ searchKeywordResults env qs query opts ∧
          r.id = k.id ∧ r.source = k.source ∧ r.path = k.path ∧ r.snippet = k.snippet ∧
          r.score = qs.hybrid.textWeight * k.textScore ∧
          (opts.minScore.getD qs.minScore) ≤ r.score) := by
  have hvr := searchVectorResults_of_zero env qs query opts hzero
  constructor
  · intro hv
    unfold search
    dsimp only
    rw [hv, hvr]
    simp [hq, jsSliceEnd_nil]
  · intro hm hen
    have heq : search env qs query opts =
        jsSliceEnd (opts.maxResults.getD qs.maxResults)
          ((mergeHybridResults [] (searchKeywordResults env qs query opts)
              qs.hybrid.vectorWeight qs.hybrid.textWeight).filter
            (fun e => decide ((opts.minScore.getD qs.minScore) ≤ e.score) &&
              (e.source == Source.memory || e.source == Source.sessions))) := by
      unfold search
      dsimp only
      rw [hm, hvr]
      simp [hq, hen]
    refine ⟨heq, ?_⟩
    intro r hr
    rw [heq] at hr
    have h1 := List.mem_filter.mp (jsSliceEnd_subset _ _ hr)
    have h2 := h1.2
    simp only [Bool.and_eq_true, decide_eq_true_eq] at h2
    obtain ⟨t, ht, he⟩ := mergeHybridResults_nil_vec _ _ _ r h1.1
    subst he
    exact ⟨t, ht, rfl, rfl, rfl, rfl, rfl, h2.1⟩

/-! ## Concrete fixtures used by witnesses and counterexamples -/

/-- A session-transcript chunk row. -/
def rowSess : ChunkRow :=
  { id := "c-sess", path := "sessions/s1.jsonl", source := Source.sessions,
    sessionKey := some "k1", role := "user", actorType := "human", actorId := "tg:1",
    messageId := some "m1", messageCreatedAt := some 10, startLine := 1, endLine := 1,
    hash := "h1", model := "m", text := "alpha bravo", embedding := [1],
    createdAt := some 10, updatedAt := 10 }

/-- A memory-file chunk row with the same text. -/
def rowMem : ChunkRow :=
  { id := "c-mem", path := "memory/notes.md", source := Source.memory, sessionKey := none,
    role := "system", actorType := "agent", actorId := "agent:a", messageId := none,
    messageCreatedAt := none, startLine := 1, endLine := 1, hash := "h2", model := "m",
    text := "alpha bravo", embedding := [1], createdAt := some 5, updatedAt := 10 }

/-- A store in which every chunk matches every keyword query and the
provider is degraded (all query embeddings are zero). -/
def envW : SearchEnv :=
  { chunks := [rowMem, rowSess],
    tsMatch := fun _ _ => true,
    tsRank := fun _ _ => 1,
    cosDist := fun _ _ => 0,
    snip := fun t => t,
    embedQuery := fun _ => [0],
    model := "m",
    sources := [Source.memory, Source.sessions] }

def qsW : QuerySettings :=
  { minScore := 0, maxResults := 5,
    hybrid := { enabled := true, candidateMultiplier := 2,
                vectorWeight := 1/2, textWeight := 1/2 } }

/-- The single result of the concrete session-scoped search. -/
def rW : RawResult :=
  { id := "c-sess", path := "sessions/s1.jsonl", startLine := 1, endLine := 1,
    score := 1/2, textScore := 1, vectorScore := 0, snippet := "alpha bravo",
    source := Source.sessions }

unseal Rat.mul Rat.add Rat.sub Rat.inv in
theorem session_scope_privacy_witness :
    rW.source = Source.sessions ∧
      ∃ row, row ∈ envW.chunks ∧ row.id = rW.id ∧ row.source = Source.sessions ∧
        row.sessionKey = some "k1" :=
  session_scope_privacy envW qsW "alpha" { sessionKey := some "k1" } "k1"
    (Or.inl rfl) rfl (by decide) (by decide) rW (by decide)

theorem missing_session_key_disables_privacy_filter_witness :
    (∀ (row : ChunkRow) (s : Source) (k : Option String),
        filtersHold (buildSearchFilters (searchFilterParams
            ({ sessionKey := some "   " } : SearchOpts)))
            { row with source := s, sessionKey := k } =
          filtersHold (buildSearchFilters (searchFilterParams
            ({ sessionKey := some "   " } : SearchOpts))) row) ∧
    (∀ K : String, jsTrim K ≠ "" →
        FilterCond.sessionOnly (jsTrim K) ∈
          buildSearchFilters (searchFilterParams
            ({ ({ sessionKey := some "   " } : SearchOpts) with sessionKey := some K }))) :=
  missing_session_key_disables_privacy_filter { sessionKey := some "   " }
    (Or.inl rfl) (by decide)

theorem scope_auto_resolution_amended_witness :
    (strTruthy (some "tg:+1234") = true →
        isGroupChatCtx
            { actorId := some "tg:+1234", actorType := some "human",
              chatType := none } = false →
        isSharedContextQuery "what did I say yesterday?" = false →
      resolveSearchScope none none none
          { actorId := some "tg:+1234", actorType := some "human", chatType := none }
          "what did I say yesterday?" =
        { scope := Scope.actor, actorId := some "tg:+1234", actorType := some "human" }) ∧
    (isSharedContextQuery "what did I say yesterday?" = true →
      (resolveSearchScope none none none
          { actorId := some "tg:+1234", actorType := some "human", chatType := none }
          "what did I say yesterday?").scope =
          (if isGroupChatCtx
              { actorId := some "tg:+1234", actorType := some "human",
                chatType := none } = true
           then Scope.session else Scope.global) ∧
        (resolveSearchScope none none none
            { actorId := some "tg:+1234", actorType := some "human", chatType := none }
            "what did I say yesterday?").actorId = none) ∧
    (¬(strTruthy (some "tg:+1234") = true ∧
          isGroupChatCtx
              { actorId := some "tg:+1234", actorType := some "human",
                chatType := none } = false) →
        isSharedContextQuery "what did I say yesterday?" = false →
      resolveSearchScope none none none
          { actorId := some "tg:+1234", actorType := some "human", chatType := none }
          "what did I say yesterday?" =
        { scope := Scope.session, actorId := none, actorType := none }) :=
  scope_auto_resolution_amended
    { actorId := some "tg:+1234", actorType := some "human", chatType := none }
    "what did I say yesterday?"

unseal Rat.mul Rat.add Rat.sub Rat.inv in
/-- C7 (counterexample to the claim as stated): with a degraded
provider (all-zero query embedding) and a populated store, a `search`
in vector mode returns the empty list, while the keyword results after
min-score filtering and truncation at this input are non-empty — so
the returned results are not the keyword results. -/
theorem zero_embedding_vector_mode_counterexample :
    search envW qsW "alpha" { mode := some Mode.vector } = [] ∧
    jsSliceEnd qsW.maxResults
        ((searchKeyword envW (jsTrim "alpha") (searchLimit qsW { mode := some Mode.vector })
            (searchFilterParams ({ mode := some Mode.vector } : SearchOpts))).filter
          (fun e => decide (qsW.minScore ≤ e.score))) ≠ [] := by
  constructor
  · rfl
  · decide

theorem zero_embedding_keyword_fallback_witness :
    (resolvedSearchMode qsW {} = Mode.vector → search envW qsW "alpha" {} = []) ∧
    (resolvedSearchMode qsW {} = Mode.hybrid → qsW.hybrid.enabled = true →
      search envW qsW "alpha" {} =
        jsSliceEnd (SearchOpts.maxResults {} |>.getD qsW.maxResults)
          ((mergeHybridResults [] (searchKeywordResults envW qsW "alpha" {})
              qsW.hybrid.vectorWeight qsW.hybrid.textWeight).filter
            (fun e => decide ((SearchOpts.minScore {} |>.getD qsW.minScore) ≤ e.score) &&
              (e.source == Source.memory || e.source == Source.sessions))) ∧
      ∀ r ∈ search envW qsW "alpha" {},
        ∃ k, k ∈ searchKeywordResults envW qsW "alpha" {} ∧
          r.id = k.id ∧ r.source = k.source ∧ r.path = k.path ∧ r.snippet = k.snippet ∧
          r.score = qsW.hybrid.textWeight * k.textScore ∧
          (SearchOpts.minScore {} |>.getD qsW.minScore) ≤ r.score) :=
  zero_embedding_keyword_fallback envW qsW "alpha" {} (by decide) (by decide)

/-! ## Path resolution and the `memory_get` read (`readFile`)

POSIX path semantics (`path.resolve`, `path.relative`, `path.isAbsolute`)
are embedded over segment lists; the workspace directory is assumed
absolute, as it is in the manager. The filesystem is a map from
normalized absolute paths to file kinds (`lstat`). -/

/-- Split a character list at every occurrence of `sep`
(`String.prototype.split`). -/
def splitOnCharList (sep : Char) : List Char → List (List Char)
  | [] => [[]]
  | c :: cs =>
    let r := splitOnCharList sep cs
    if c == sep then [] :: r
    else
      match r with
      | [] => [[c]]
      | h :: t => (c :: h) :: t

def splitOnCharStr (sep : Char) (s : String) : List String :=
  (splitOnCharList sep s.data).map (fun l => ⟨l⟩)

def joinSegsWith (sep : String) : List String → String
  | [] => ""
  | [s] => s
  | s :: rest => s ++ sep ++ joinSegsWith sep rest

def pathSegs (s : String) : List String := splitOnCharStr '/' s

def isAbsolutePath (s : String) : Bool := jsStartsWith s "/"

/-- Normalize a segment list: drop empty and `.` segments, pop on `..`
(at the root a `..` is dropped, as in `path.resolve` for absolute
paths). The accumulator holds the result reversed. -/
def normalizeSegs : List String → List String → List String
  | acc, [] => acc.reverse
  | acc, seg :: rest =>
    if seg == "" || seg == "." then normalizeSegs acc rest
    else if seg == ".." then normalizeSegs (acc.drop 1) rest
    else normalizeSegs (seg :: acc) rest

/-- `path.resolve(base, rel)` for an absolute `base`. -/
def resolvePath (base rel : String) : String :=
  let segs := if isAbsolutePath rel then pathSegs rel else pathSegs base ++ pathSegs rel
  "/" ++ joinSegsWith "/" (normalizeSegs [] segs)

def dropCommonSegs : List String → List String → List String × List String
  | a :: as, b :: bs => if a == b then dropCommonSegs as bs else (a :: as, b :: bs)
  | as, bs => (as, bs)

/-- `path.relative(fromP, toP)` for absolute inputs. -/
def relativePath (fromP toP : String) : String :=
  let pair := dropCommonSegs (normalizeSegs [] (pathSegs fromP)) (normalizeSegs [] (pathSegs toP))
  joinSegsWith "/" (pair.1.map (fun _ => "..") ++ pair.2)

inductive FileKind
  | file
  | dir
  | symlink
  | missing
deriving DecidableEq, Repr

/-- The environment of `readFile`: the agent workspace directory
(absolute), the configured extra paths, and the filesystem (`lstat`
kind and file contents by normalized absolute path). -/
structure MemoryFsEnv where
  workspaceDir : String
  extraPaths : List String
  stat : String → FileKind
  content : String → String

/-- Modelled from the spec: `isMemoryPath` lives in
`memory/internal.ts`, which is not among the provided sources. The
workspace layout (§6) lists `MEMORY.md`, `memory.md` and `memory/*.md`
as the memory files. -/
def isMemoryPath (rel : String) : Bool :=
  rel == "MEMORY.md" || rel == "memory.md" ||
    (jsStartsWith rel "memory/" && jsEndsWith rel ".md")

/-- Modelled from the spec: `normalizeExtraMemoryPaths` lives in
`memory/internal.ts`, which is not among the provided sources; it
resolves the configured extra paths against the workspace directory. -/
def normalizeExtraMemoryPaths (workspaceDir : String) (extra : List String) : List String :=
  extra.map (fun p => resolvePath workspaceDir p)

/-- The absolute path `readFile` resolves a (pre-trimmed) request to. -/
def memGetAbsPath (env : MemoryFsEnv) (rawPath : String) : String :=
  if isAbsolutePath rawPath then resolvePath "/" rawPath
  else resolvePath env.workspaceDir rawPath

/-- The `inWorkspace` test of `readFile`: the relative path is
non-empty, does not start with `..`, and is not absolute. -/
def memGetInWorkspace (env : MemoryFsEnv) (rawPath : String) : Bool :=
  let relP := relativePath env.workspaceDir (memGetAbsPath env rawPath)
  !(relP == "") && !(jsStartsWith relP "..") && !(isAbsolutePath relP)

/-- The extra-path allowance loop of `readFile`: a non-symlink extra
directory containing the path, or a non-symlink extra `.md` file equal
to it; `lstat` failures are skipped. -/
def memGetAllowedAdditional (env : MemoryFsEnv) (absPath : String) : Bool :=
  (normalizeExtraMemoryPaths env.workspaceDir env.extraPaths).any (fun ap =>
    match env.stat ap with
    | FileKind.symlink => false
    | FileKind.dir => absPath == ap || jsStartsWith absPath (ap ++ "/")
    | FileKind.file => absPath == ap && jsEndsWith absPath ".md"
    | FileKind.missing => false)

/-- The combined allowance check of `readFile`
(`allowedWorkspace || allowedAdditional`; the additional check only
runs when the workspace check failed and extra paths are configured). -/
def memGetAllowed (env : MemoryFsEnv) (rawPath : String) : Bool :=
  let allowedWorkspace :=
    memGetInWorkspace env rawPath &&
      isMemoryPath (relativePath env.workspaceDir (memGetAbsPath env rawPath))
  let allowedAdditional :=
    !allowedWorkspace && !env.extraPaths.isEmpty &&
      memGetAllowedAdditional env (memGetAbsPath env rawPath)
  allowedWorkspace || allowedAdditional

/-- Translation of `PostgresMemoryIndexManager.readFile`. -/
def readFile (env : MemoryFsEnv) (relPathRaw : String) (fromL lines : Option Int) :
    Except String (String × String) :=
  let rawPath := jsTrim relPathRaw
  if rawPath == "" then Except.error "path required"
  else if !(memGetAllowed env rawPath) then Except.error "path required"
  else if !(jsEndsWith (memGetAbsPath env rawPath) ".md") then Except.error "path required"
  else
    match env.stat (memGetAbsPath env rawPath) with
    | FileKind.missing => Except.error "ENOENT"
    | FileKind.symlink => Except.error "path required"
    | FileKind.dir => Except.error "path required"
    | FileKind.file =>
      let content := env.content (memGetAbsPath env rawPath)
      let relP := relativePath env.workspaceDir (memGetAbsPath env rawPath)
      if !(numTruthy fromL) && !(numTruthy lines) then Except.ok (content, relP)
      else
        let ls := splitOnCharStr '\n' content
        let start := max 1 (fromL.getD 1)
        let count := max 1 (lines.getD (ls.length : Int))
        Except.ok (joinSegsWith "\n" ((ls.drop (Int.toNat (start - 1))).take (Int.toNat count)),
          relP)

/-- The JSON envelope returned by the tools. -/
structure GetEnvelope where
  path : String
  text : String
  disabled : Bool := false
  error : Option String := none
deriving DecidableEq, Repr

/-- Translation of the `memory_get` tool execute body: call
`manager.readFile` and absorb any thrown error into a
`disabled: true` envelope carrying the error message. -/
def memoryGetTool (env : MemoryFsEnv) (relPath : String) (fromL lines : Option Int) :
    GetEnvelope :=
  match readFile env relPath fromL lines with
  | Except.ok (text, rel) => { path := rel, text := text }
  | Except.error m => { path := relPath, text := "", disabled := true, error := some m }

theorem memGetAllowed_eq_false (env : MemoryFsEnv) (rawPath : String)
    (hin : memGetInWorkspace env rawPath = false)
    (hadd : memGetAllowedAdditional env (memGetAbsPath env rawPath) = false) :
    memGetAllowed env rawPath = false := by
  unfold memGetAllowed
  dsimp only
  rw [hin, hadd]
  simp

/-- C8 (scoped denial): for every request that resolves to a symlink,
to a non-`.md` path, or to a path outside the workspace that the
extra-path allowance does not admit, `readFile` raises `path required`
and the `memory_get` tool returns the `disabled: true` envelope with
error `"path required"` instead of any file content. -/
theorem memory_get_scoped_denial (env : MemoryFsEnv) (p : String) (fromL lines : Option Int)
    (h : env.stat (memGetAbsPath env (jsTrim p)) = FileKind.symlink ∨
      jsEndsWith (memGetAbsPath env (jsTrim p)) ".md" = false ∨
      (memGetInWorkspace env (jsTrim p) = false ∧
        memGetAllowedAdditional env (memGetAbsPath env (jsTrim p)) = false)) :
    readFile env p fromL lines = Except.error "path required" ∧
    memoryGetTool env p fromL lines =
      { path := p, text := "", disabled := true, error := some "path required" } := by
  have hmain : readFile env p fromL lines = Except.error "path required" := by
    unfold readFile
    dsimp only
    split
    · rfl
    · split
      · rfl
      · split
        · rfl
        · rename_i hval hallow hmd
          rcases h with hsym | hnmd | ⟨hin, hadd⟩
          · rw [hsym]
          · rw [hnmd] at hmd
            simp at hmd
          · rw [memGetAllowed_eq_false env (jsTrim p) hin hadd] at hallow
            simp at hallow
  refine ⟨hmain, ?_⟩
  unfold memoryGetTool
  rw [hmain]

/-- A workspace with no extra paths and an empty filesystem. -/
def fsEnv0 : MemoryFsEnv :=
  { workspaceDir := "/ws", extraPaths := [], stat := fun _ => FileKind.missing,
    content := fun _ => "" }

theorem memory_get_scoped_denial_witness :
    readFile fsEnv0 "../etc/passwd" none none = Except.error "path required" ∧
    memoryGetTool fsEnv0 "../etc/passwd" none none =
      { path := "../etc/passwd", text := "", disabled := true,
        error := some "path required" } :=
  memory_get_scoped_denial fsEnv0 "../etc/passwd" none none
    (Or.inr (Or.inr ⟨by decide, by decide⟩))

/-! ## Actor lookup (`lookupActors`) -/

/-- A row of `memory_actors`. -/
structure ActorRow where
  actorId : String
  actorType : String
  displayName : Option String
deriving DecidableEq, Repr

/-- A row of `memory_actor_aliases` (`alias_norm` is stored
lowercase-trimmed by the indexer). -/
structure AliasRow where
  aliasValue : String
  aliasNorm : String
  actorId : String
  confidence : Option Rat
deriving DecidableEq, Repr

/-- One row of the `lookupActors` result set. -/
structure LookupRes where
  actorId : String
  actorType : String
  displayName : Option String
  aliases : List String
  confidence : Option Rat
deriving DecidableEq, Repr

/-- `needle` occurs at the head of `hay`. -/
def substrAt : List Char → List Char → Bool
  | [], _ => true
  | _ :: _, [] => false
  | n :: ns, h :: hs => n == h && substrAt ns hs

/-- `needle` occurs somewhere in `hay`. -/
def substrSearch (needle : List Char) : List Char → Bool
  | [] => substrAt needle []
  | c :: hs => substrAt needle (c :: hs) || substrSearch needle hs

/-- `hay LIKE '%' || pat || '%'` for a pattern without LIKE
metacharacters (the lookup query is interpolated verbatim). -/
def likeContains (hay pat : String) : Bool := substrSearch pat.data hay.data

/-- `max(confidence)` over the aggregated rows (`NULL` entries are
ignored by SQL `max`; an empty aggregate is `NULL`). -/
def maxConfidence (l : List Rat) : Option Rat :=
  l.foldl (fun acc v =>
    match acc with
    | none => some v
    | some m => some (max m v)) none

/-- Sort key of `ORDER BY confidence DESC NULLS LAST, display_name ASC
NULLS LAST`: confidence negated (descending) with `NULL` mapped to top,
then display name ascending with `NULL` mapped to top, compared
lexicographically. -/
def lookupKey (r : LookupRes) : (WithTop Rat) ×ₗ (WithTop String) :=
  toLex
    ((match r.confidence with
      | none => ⊤
      | some c => ((-c : Rat) : WithTop Rat)),
     (match r.displayName with
      | none => ⊤
      | some d => (d : WithTop String)))

def lookupLe (a b : LookupRes) : Bool := decide (lookupKey a ≤ lookupKey b)

/-- The joined alias rows of one actor (`LEFT JOIN ... ON al.actor_id
= a.actor_id`). -/
def lookupRowsOf (aliases : List AliasRow) (a : ActorRow) : List AliasRow :=
  aliases.filter (fun al => al.actorId == a.actorId)

/-- `lower(a.display_name) LIKE $1` (`NULL` display name yields no
match). -/
def lookupDispMatch (a : ActorRow) (norm : String) : Bool :=
  match a.displayName with
  | some d => likeContains (jsToLower d) norm
  | none => false

/-- The joined rows of the actor that pass the `WHERE` clause
(`al.alias_norm LIKE $1 OR lower(a.display_name) LIKE $1`). -/
def lookupMatching (aliases : List AliasRow) (a : ActorRow) (norm : String) : List AliasRow :=
  (lookupRowsOf aliases a).filter
    (fun al => likeContains al.aliasNorm norm || lookupDispMatch a norm)

/-- The actor survives the `WHERE` clause: with no aliases the single
left-joined row passes only on display-name match, otherwise some
joined row passes. -/
def lookupPass (aliases : List AliasRow) (a : ActorRow) (norm : String) : Bool :=
  if (lookupRowsOf aliases a).isEmpty then lookupDispMatch a norm
  else !(lookupMatching aliases a norm).isEmpty

/-- The aggregated group row for one actor when it passes. -/
def lookupRowFor (aliases : List AliasRow) (a : ActorRow) (norm : String) :
    Option LookupRes :=
  if lookupPass aliases a norm then
    some { actorId := a.actorId, actorType := a.actorType, displayName := a.displayName,
           aliases := ((lookupMatching aliases a norm).map (fun al => al.aliasValue)).dedup,
           confidence :=
             maxConfidence ((lookupMatching aliases a norm).filterMap (fun al => al.confidence)) }
  else none

/-- Translation of `lookupActors`: trim the query and reject it when
empty, lowercase it, clamp the limit to `max(1, min(50, limit ?? 10))`,
keep the actors with a passing joined row, aggregate distinct aliases
and max confidence over the passing rows, order by
`(confidence DESC NULLS LAST, display_name ASC NULLS LAST)` and limit. -/
def lookupActors (actors : List ActorRow) (aliases : List AliasRow) (query : String)
    (limitOpt : Option Int) : List LookupRes :=
  let q := jsTrim query
  if q == "" then []
  else
    let norm := jsToLower q
    let limit := max 1 (min 50 (limitOpt.getD 10))
    (sortByBool lookupLe
        (actors.filterMap (fun a => lookupRowFor aliases a norm))).take (Int.toNat limit)

theorem lookupDispMatch_true (a : ActorRow) (norm : String)
    (h : lookupDispMatch a norm = true) :
    ∃ d, a.displayName = some d ∧ likeContains (jsToLower d) norm = true := by
  unfold lookupDispMatch at h
  cases hd : a.displayName with
  | none => rw [hd] at h; simp at h
  | some d => rw [hd] at h; exact ⟨d, rfl, h⟩

theorem lookupRowFor_some (aliases : List AliasRow) (a : ActorRow) (norm : String)
    (r : LookupRes) (h : lookupRowFor aliases a norm = some r) :
    r.actorId = a.actorId ∧ r.actorType = a.actorType ∧ r.displayName = a.displayName ∧
      (lookupDispMatch a norm = true ∨
        ∃ al, al ∈ aliases ∧ al.actorId = a.actorId ∧
          likeContains al.aliasNorm norm = true) := by
  unfold lookupRowFor at h
  split at h
  · rename_i hpass
    simp only [Option.some.injEq] at h
    subst h
    refine ⟨rfl, rfl, rfl, ?_⟩
    unfold lookupPass at hpass
    split at hpass
    · exact Or.inl hpass
    · have hne : lookupMatching aliases a norm ≠ [] := by
        intro hnil
        rw [hnil] at hpass
        simp at hpass
      obtain ⟨al, hal⟩ := List.exists_mem_of_ne_nil _ hne
      have h2 := List.mem_filter.mp hal
      have h3 := List.mem_filter.mp h2.1
      have h4 : likeContains al.aliasNorm norm = true ∨ lookupDispMatch a norm = true := by
        simpa using h2.2
      rcases h4 with hlike | hdisp
      · exact Or.inr ⟨al, h3.1, by simpa using h3.2, hlike⟩
      · exact Or.inl hdisp
  · simp at h

/-- C10 (actor lookup): an empty or whitespace-only query returns no
actors; every returned actor has a display name or some alias matching
`LIKE %query%` case-insensitively; the result list is ordered by
`(max confidence DESC NULLS LAST, display_name ASC NULLS LAST)`; and at
most `min(50, max(1, limit))` rows are returned, with the limit
defaulting to 10. -/
theorem actor_lookup_contract (actors : List ActorRow) (aliases : List AliasRow)
    (query : String) (limitOpt : Option Int) :
    (jsTrim query = "" → lookupActors actors aliases query limitOpt = []) ∧
    (∀ r ∈ lookupActors actors aliases query limitOpt,
      ∃ a, a ∈ actors ∧ r.actorId = a.actorId ∧ r.actorType = a.actorType ∧
        r.displayName = a.displayName ∧
        ((∃ d, a.displayName = some d ∧
            likeContains (jsToLower d) (jsToLower (jsTrim query)) = true) ∨
          (∃ al, al ∈ aliases ∧ al.actorId = a.actorId ∧
            likeContains al.aliasNorm (jsToLower (jsTrim query)) = true))) ∧
    List.Pairwise (fun x y => lookupLe x y = true)
      (lookupActors actors aliases query limitOpt) ∧
    (lookupActors actors aliases query limitOpt).length ≤
      Int.toNat (min 50 (max 1 (limitOpt.getD 10))) := by
  refine ⟨?_, ?_, ?_, ?_⟩
  · intro h
    unfold lookupActors
    simp [h]
  · intro r hr
    unfold lookupActors at hr
    dsimp only at hr
    split at hr
    · simp at hr
    · have h1 := List.take_subset _ _ hr
      have h2 := (mem_sortByBool _ _ _).mp h1
      obtain ⟨a, ha, hfa⟩ := List.mem_filterMap.mp h2
      obtain ⟨hid, hty, hdn, hmatch⟩ := lookupRowFor_some _ _ _ _ hfa
      refine ⟨a, ha, hid, hty, hdn, ?_⟩
      rcases hmatch with hdisp | ⟨al, hal, haid, hlike⟩
      · exact Or.inl (lookupDispMatch_true _ _ hdisp)
      · exact Or.inr ⟨al, hal, haid, hlike⟩
  · unfold lookupActors
    dsimp only
    split
    · simp
    · refine List.Pairwise.sublist (List.take_sublist _ _)
        (pairwise_sortByBool lookupLe ?_ ?_ _)
      · intro a b
        rcases le_total (lookupKey a) (lookupKey b) with h | h
        · exact Or.inl (decide_eq_true h)
        · exact Or.inr (decide_eq_true h)
      · intro a b c hab hbc
        exact decide_eq_true (le_trans (of_decide_eq_true hab) (of_decide_eq_true hbc))
  · unfold lookupActors
    dsimp only
    split
    · simp
    · have heq : Int.toNat (max 1 (min 50 (limitOpt.getD 10))) =
          Int.toNat (min 50 (max 1 (limitOpt.getD 10))) := by omega
      exact heq ▸ List.length_take_le _ _

/-- Two actors and two aliases exercising display-name and alias
matches. -/
def actorsW : List ActorRow :=
  [{ actorId := "tg:1", actorType := "human", displayName := some "Alice" },
   { actorId := "tg:2", actorType := "human", displayName := none }]

def aliasesW : List AliasRow :=
  [{ aliasValue := "Ali", aliasNorm := "ali", actorId := "tg:1", confidence := some 1 },
   { aliasValue := "Bob", aliasNorm := "bob", actorId := "tg:2", confidence := some 1 }]

theorem actor_lookup_contract_witness :
    (jsTrim "Ali" = "" → lookupActors actorsW aliasesW "Ali" (some 5) = []) ∧
    (∀ r ∈ lookupActors actorsW aliasesW "Ali" (some 5),
      ∃ a, a ∈ actorsW ∧ r.actorId = a.actorId ∧ r.actorType = a.actorType ∧
        r.displayName = a.displayName ∧
        ((∃ d, a.displayName = some d ∧
            likeContains (jsToLower d) (jsToLower (jsTrim "Ali")) = true) ∨
          (∃ al, al ∈ aliasesW ∧ al.actorId = a.actorId ∧
            likeContains al.aliasNorm (jsToLower (jsTrim "Ali")) = true))) ∧
    List.Pairwise (fun x y => lookupLe x y = true)
      (lookupActors actorsW aliasesW "Ali" (some 5)) ∧
    (lookupActors actorsW aliasesW "Ali" (some 5)).length ≤
      Int.toNat (min 50 (max 1 ((some (5:Int)).getD 10))) :=
  actor_lookup_contract actorsW aliasesW "Ali" (some 5)

/-! ## The incremental indexer
(`embedChunks`, `indexEntry`, `syncEntries`, `runSync`)

The store is the triple of tables the indexer owns (`memory_files`,
`memory_chunks`, `embedding_cache`) plus the `memory_meta` row and the
manager-held `this.vectorDims`. The chunker (`chunkMarkdown`, in
`memory/internal.ts`, not among the provided sources) and the
embedding provider are parameters; provider failures are injected
through the `Except` result of `embed`, transaction failures through
`txFails`. `randomUUID` is modelled by deterministic fresh ids. -/

/-- Output of `chunkMarkdown`. -/
structure MemoryChunkT where
  startLine : Int
  endLine : Int
  text : String
  hash : String
deriving DecidableEq, Repr

inductive MsgRole
  | user
  | assistant
deriving DecidableEq, Repr

/-- One extracted session message. -/
structure SessionMsg where
  role : MsgRole
  text : String
  createdAt : Option Int
deriving DecidableEq, Repr

/-- A file entry handed to `syncEntries` — a memory file entry, or a
session entry when `messages` is present (the `"messages" in entry`
test of `indexEntry`). -/
structure GenericEntry where
  path : String
  hash : String
  mtimeMs : Int
  size : Int
  content : String
  sessionKey : Option String := none
  userId : Option String := none
  messages : Option (List SessionMsg) := none
deriving DecidableEq, Repr

/-- A row of `memory_files`. -/
structure FileRow where
  path : String
  source : Source
  sessionKey : Option String
  role : Option String
  actorType : Option String
  actorId : Option String
  hash : String
  mtime : Int
  size : Int
deriving DecidableEq, Repr

/-- A row of `embedding_cache`. -/
structure CacheRow where
  provider : String
  model : String
  providerKey : String
  hash : String
  embedding : List Rat
  dims : Int
  updatedAt : Int
deriving DecidableEq, Repr

/-- The `memory_meta` value (`MemoryIndexMeta`). -/
structure MetaRow where
  model : String
  provider : String
  providerKey : Option String
  chunkTokens : Int
  chunkOverlap : Int
  vectorDims : Option Int
deriving DecidableEq, Repr

/-- The indexer-owned store state plus the manager-held
`this.vectorDims`. -/
structure Store where
  files : List FileRow
  chunks : List ChunkRow
  cache : List CacheRow
  meta : Option MetaRow
  mgrDims : Option Int := none
deriving Repr

/-- The manager context of one sync: provider identity, chunking
parameters, the chunker and the provider, failure injection and the
clock. -/
structure SyncCtx where
  agentId : String
  providerId : String
  providerModel : String
  providerKey : String
  chunkTokens : Int
  chunkOverlap : Int
  cacheEnabled : Bool
  chunker : String → List MemoryChunkT
  embed : List String → Except String (List (List Rat))
  txFails : String → Bool := fun _ => false
  now : Int

/-- Deterministic model of `randomUUID` for chunk row ids. -/
def mkChunkId (path : String) (i : Nat) : String := path ++ "#chunk:" ++ toString i

/-- Deterministic model of `randomUUID` for message ids. -/
def mkMessageId (path : String) (i : Nat) : String := path ++ "#msg:" ++ toString i

/-- Cache lookup keyed by `(provider, model, provider_key, hash)`;
rows with an empty stored vector are skipped (the `parsed.length > 0`
guard). -/
def cacheLookup (st : Store) (ctx : SyncCtx) (h : String) : Option (List Rat) :=
  (st.cache.find? (fun r =>
      r.provider == ctx.providerId && r.model == ctx.providerModel &&
        r.providerKey == ctx.providerKey && r.hash == h)).bind
    (fun r => if r.embedding.isEmpty then none else some r.embedding)

/-- `INSERT ... ON CONFLICT (provider, model, provider_key, hash) DO
UPDATE`. -/
def cacheUpsert (st : Store) (row : CacheRow) : Store :=
  if st.cache.any (fun r =>
      r.provider == row.provider && r.model == row.model &&
        r.providerKey == row.providerKey && r.hash == row.hash) then
    { st with cache := st.cache.map (fun r =>
        if r.provider == row.provider && r.model == row.model &&
            r.providerKey == row.providerKey && r.hash == row.hash then row else r) }
  else { st with cache := st.cache ++ [row] }

/-- First-occurrence deduplication of a string list. -/
def dedupKeepFirst : List String → List String
  | [] => []
  | h :: t => h :: (dedupKeepFirst t).filter (fun x => !(x == h))

/-- The cache-upsert loop of `embedChunks`: one upsert per unique
missing hash whose embedding arrived. -/
def cacheWriteAll (ctx : SyncCtx) (embOf : String → Option (List Rat)) :
    List String → Store → Store
  | [], st => st
  | h :: hs, st =>
    match embOf h with
    | none => cacheWriteAll ctx embOf hs st
    | some emb =>
      cacheWriteAll ctx embOf hs (cacheUpsert st
        { provider := ctx.providerId, model := ctx.providerModel,
          providerKey := ctx.providerKey, hash := h, embedding := emb,
          dims := (emb.length : Int), updatedAt := ctx.now })

/-- Translation of `embedChunks`: without the cache, one direct
provider call; with the cache, look up all hashes, deduplicate the
missing ones by hash, embed the unique texts, fan each embedding out to
every chunk sharing its hash, upsert the new cache rows (this happens
before the per-file transaction), and fail if any chunk still has an
empty embedding. -/
def embedChunks (st : Store) (ctx : SyncCtx) (chunks : List MemoryChunkT) :
    Store × Except String (List (List Rat)) :=
  let texts := chunks.map (fun c => c.text)
  if !ctx.cacheEnabled then
    match ctx.embed texts with
    | Except.error e => (st, Except.error e)
    | Except.ok embs => (st, Except.ok embs)
  else
    let missingHashes := dedupKeepFirst ((chunks.filter (fun c =>
        !(c.hash == "") && (cacheLookup st ctx c.hash).isNone)).map (fun c => c.hash))
    let uniqueTexts := missingHashes.filterMap (fun h =>
        (chunks.find? (fun c => c.hash == h)).map (fun c => c.text))
    let embRes := if missingHashes.isEmpty then Except.ok [] else ctx.embed uniqueTexts
    match embRes with
    | Except.error e => (st, Except.error e)
    | Except.ok embs =>
      let embOf := fun (h : String) =>
        (missingHashes.findIdx? (fun x => x == h)).bind (fun i => embs.get? i)
      let st1 := cacheWriteAll ctx embOf missingHashes st
      let results := chunks.map (fun c =>
        if c.hash == "" then []
        else
          match cacheLookup st ctx c.hash with
          | some e => e
          | none => (embOf c.hash).getD [])
      if results.any (fun v => v.isEmpty) then
        (st1, Except.error "Embedding provider returned empty embeddings.")
      else (st1, Except.ok results)

/-- A chunk with the role/actor/timestamp fields `indexEntry` attaches
before embedding. -/
structure PendingChunk extends MemoryChunkT where
  role : String
  actorType : String
  actorId : String
  createdAt : Int
  messageId : Option String
  messageCreatedAt : Option Int
deriving DecidableEq, Repr

/-- The chunk-construction half of `indexEntry`: session entries chunk
each message independently, attaching a fresh message id and the
message timestamp to every derived chunk; memory files chunk the file
content with `role = system` and the agent actor. -/
def buildSessionChunks (ctx : SyncCtx) (entry : GenericEntry) (userId : String) :
    Nat → List SessionMsg → List PendingChunk
  | _, [] => []
  | mi, m :: ms =>
    let role := match m.role with
      | MsgRole.user => "user"
      | MsgRole.assistant => "assistant"
    let actorType := match m.role with
      | MsgRole.user => "human"
      | MsgRole.assistant => "agent"
    let actorId := match m.role with
      | MsgRole.user => userId
      | MsgRole.assistant => "agent:" ++ ctx.agentId
    let mcat := m.createdAt.getD ctx.now
    ((ctx.chunker m.text).map (fun c =>
      { toMemoryChunkT := c, role := role, actorType := actorType, actorId := actorId,
        createdAt := mcat, messageId := some (mkMessageId entry.path mi),
        messageCreatedAt := some mcat })) ++
      buildSessionChunks ctx entry userId (mi + 1) ms

def buildPendingChunks (ctx : SyncCtx) (entry : GenericEntry) (isSession : Bool) :
    List PendingChunk :=
  if isSession then
    buildSessionChunks ctx entry (entry.userId.getD "unknown") 0 (entry.messages.getD [])
  else
    (ctx.chunker entry.content).map (fun c =>
      { toMemoryChunkT := c, role := "system", actorType := "agent",
        actorId := "agent:" ++ ctx.agentId, createdAt := entry.mtimeMs,
        messageId := none, messageCreatedAt := none })

/-- The `memory_files` upsert row of `indexEntry`. -/
def fileRowFor (ctx : SyncCtx) (entry : GenericEntry) (source : Source) (isSession : Bool) :
    FileRow :=
  { path := entry.path, source := source,
    sessionKey := if isSession then entry.sessionKey else none,
    role := if isSession then none else some "system",
    actorType := if isSession then none else some "agent",
    actorId := if isSession then none else some ("agent:" ++ ctx.agentId),
    hash := entry.hash, mtime := entry.mtimeMs, size := entry.size }

/-- The `memory_chunks` rows inserted by `indexEntry` (chunks whose
embedding is missing from a short provider answer are skipped, as by
the `if (!embedding) continue`). -/
def chunkRowsFor (ctx : SyncCtx) (entry : GenericEntry) (source : Source) (isSession : Bool) :
    Nat → List PendingChunk → List (List Rat) → List ChunkRow
  | _, [], _ => []
  | _, _ :: _, [] => []
  | i, pc :: ps, emb :: es =>
    { id := mkChunkId entry.path i, path := entry.path, source := source,
      sessionKey := if isSession then entry.sessionKey else none,
      role := pc.role, actorType := pc.actorType, actorId := pc.actorId,
      messageId := pc.messageId, messageCreatedAt := pc.messageCreatedAt,
      startLine := pc.startLine, endLine := pc.endLine, hash := pc.hash,
      model := ctx.providerModel, text := pc.text, embedding := emb,
      createdAt := some pc.createdAt, updatedAt := ctx.now } ::
      chunkRowsFor ctx entry source isSession (i + 1) ps es

/-- Translation of `indexEntry`: build the chunks, embed them (cache
writes happen before the transaction), then in one transaction upsert
the file row (`ON CONFLICT (path)`), delete the prior chunks of
`(path, source)` and insert the new rows; on any error the transaction
is rolled back and the error rethrown. -/
def indexEntry (st : Store) (ctx : SyncCtx) (entry : GenericEntry) (source : Source) :
    Store × Option String :=
  let isSession := source == Source.sessions && entry.messages.isSome
  let pending := buildPendingChunks ctx entry isSession
  if pending.isEmpty then (st, none)
  else
    match embedChunks st ctx (pending.map (fun c => c.toMemoryChunkT)) with
    | (st1, Except.error e) => (st1, some e)
    | (st1, Except.ok embs) =>
      if embs.isEmpty then (st1, none)
      else
        let st2 := { st1 with mgrDims :=
          match embs.head? with
          | some e => some (e.length : Int)
          | none => st1.mgrDims }
        if ctx.txFails entry.path then (st2, some "transaction error")
        else
          let fileRow := fileRowFor ctx entry source isSession
          let files' :=
            if st2.files.any (fun f => f.path == entry.path) then
              st2.files.map (fun f => if f.path == entry.path then fileRow else f)
            else st2.files ++ [fileRow]
          let newRows := chunkRowsFor ctx entry source isSession 0 pending embs
          let chunks' :=
            st2.chunks.filter (fun c => !(c.path == entry.path && c.source == source)) ++
              newRows
          ({ st2 with files := files', chunks := chunks' }, none)

/-- The sequential task loop of `syncEntries`: tasks run in order; the
first thrown error aborts the loop and propagates. -/
def runTasks (ctx : SyncCtx) (source : Source) (st : Store) :
    List GenericEntry → Store × Option String
  | [] => (st, none)
  | e :: rest =>
    match indexEntry st ctx e source with
    | (st', none) => runTasks ctx source st' rest
    | (st', some err) => (st', some err)

/-- The entries of one pass whose hash differs from the stored file
row (`prevHash && prevHash === entry.hash` skips). -/
def changedEntries (st : Store) (source : Source) (entries : List GenericEntry) :
    List GenericEntry :=
  entries.filter (fun e =>
    match (st.files.find? (fun f => f.source == source && f.path == e.path)).map
        (fun f => f.hash) with
    | some h => h == "" || !(h == e.hash)
    | none => true)

/-- Stale paths: file rows of this source whose path no candidate
lists. -/
def stalePaths (st : Store) (source : Source) (entries : List GenericEntry) : List String :=
  ((st.files.filter (fun f =>
      f.source == source && !((entries.map (fun e => e.path)).contains f.path))).map
    (fun f => f.path))

/-- Deletion of stale rows (`DELETE ... WHERE path = $1 AND source =
$2` for files and chunks). -/
def deleteStale (st : Store) (source : Source) (entries : List GenericEntry) : Store :=
  let stale := stalePaths st source entries
  { st with
    files := st.files.filter (fun f => !(f.source == source && stale.contains f.path)),
    chunks := st.chunks.filter (fun c => !(c.source == source && stale.contains c.path)) }

/-- Translation of `syncEntries`: diff against the stored hashes,
delete stale rows, then index the changed entries in order (an error
in one entry aborts the rest of the pass and propagates). -/
def syncEntries (st : Store) (ctx : SyncCtx) (entries : List GenericEntry)
    (source : Source) : Store × Option String :=
  runTasks ctx source (deleteStale st source entries) (changedEntries st source entries)

/-- The `baseMeta` record `runSync` computes (after adopting the
stored `vectorDims`). -/
def baseMetaFor (ctx : SyncCtx) (dims : Option Int) : MetaRow :=
  { model := ctx.providerModel, provider := ctx.providerId,
    providerKey := some ctx.providerKey, chunkTokens := ctx.chunkTokens,
    chunkOverlap := ctx.chunkOverlap, vectorDims := dims }

/-- The full-rebuild test of `runSync`: any mismatch of model,
provider, provider key or chunking parameters, or two known but
different vector dimensions. -/
def needsFullReindex (meta : Option MetaRow) (base : MetaRow) : Bool :=
  match meta with
  | none => true
  | some m =>
    !(m.model == base.model) || !(m.provider == base.provider) ||
      !(m.providerKey == base.providerKey) || !(m.chunkTokens == base.chunkTokens) ||
      !(m.chunkOverlap == base.chunkOverlap) ||
      (m.vectorDims.isSome && base.vectorDims.isSome && !(m.vectorDims == base.vectorDims))

/-- `clearIndex`: delete all file rows, chunk rows and embedding-cache
rows. -/
def clearIndex (st : Store) : Store :=
  { st with files := [], chunks := [], cache := [] }

/-- The trailing meta refresh of `runSync`: once the vector dims are
known and differ from the originally stored meta, rewrite the meta row
with the discovered dims. -/
def refreshDimsMeta (meta : Option MetaRow) (baseMeta : MetaRow) (st2 : Store) : Store :=
  match st2.mgrDims with
  | some d =>
    (match meta with
     | none => { st2 with meta := some { baseMeta with vectorDims := some d } }
     | some m =>
       if m.vectorDims == some d then st2
       else { st2 with meta := some { baseMeta with vectorDims := some d } })
  | none => st2

/-- Translation of `runSync` for one source (schema DDL and the count
refresh touch no indexer-owned rows and are omitted): adopt the stored
dims, rebuild from scratch when the meta mismatches, sync the entries,
and refresh the stored `vectorDims` when first discovered. -/
def runSync (st : Store) (ctx : SyncCtx) (entries : List GenericEntry) (source : Source) :
    Store × Option String :=
  let meta := st.meta
  let st0 := { st with mgrDims :=
    match meta with
    | some m => match m.vectorDims with
      | some d => some d
      | none => st.mgrDims
    | none => st.mgrDims }
  let baseMeta := baseMetaFor ctx st0.mgrDims
  let st1 :=
    if needsFullReindex meta baseMeta then { clearIndex st0 with meta := some baseMeta }
    else st0
  match syncEntries st1 ctx entries source with
  | (st2, some e) => (st2, some e)
  | (st2, none) => (refreshDimsMeta meta baseMeta st2, none)

/-! ## Indexer invariants -/

theorem cacheUpsert_files (st : Store) (row : CacheRow) :
    (cacheUpsert st row).files = st.files := by
  unfold cacheUpsert
  split <;> rfl

theorem cacheUpsert_chunks (st : Store) (row : CacheRow) :
    (cacheUpsert st row).chunks = st.chunks := by
  unfold cacheUpsert
  split <;> rfl

theorem cacheUpsert_mem (st : Store) (row r : CacheRow)
    (hr : r ∈ (cacheUpsert st row).cache) : r ∈ st.cache ∨ r = row := by
  unfold cacheUpsert at hr
  split at hr
  · obtain ⟨x, hx, hxr⟩ := List.mem_map.mp hr
    by_cases hcond : (x.provider == row.provider && x.model == row.model &&
        x.providerKey == row.providerKey && x.hash == row.hash) = true
    · rw [if_pos hcond] at hxr
      exact Or.inr hxr.symm
    · rw [if_neg hcond] at hxr
      exact Or.inl (hxr ▸ hx)
  · rcases List.mem_append.mp hr with h | h
    · exact Or.inl h
    · exact Or.inr (List.mem_singleton.mp h)

theorem cacheWriteAll_files (ctx : SyncCtx) (embOf : String → Option (List Rat)) :
    ∀ (hs : List String) (st : Store), (cacheWriteAll ctx embOf hs st).files = st.files := by
  intro hs
  induction hs with
  | nil => intro st; rfl
  | cons h t ih =>
    intro st
    unfold cacheWriteAll
    cases he : embOf h
    · exact ih st
    · rw [ih _, cacheUpsert_files]

theorem cacheWriteAll_chunks (ctx : SyncCtx) (embOf : String → Option (List Rat)) :
    ∀ (hs : List String) (st : Store), (cacheWriteAll ctx embOf hs st).chunks = st.chunks := by
  intro hs
  induction hs with
  | nil => intro st; rfl
  | cons h t ih =>
    intro st
    unfold cacheWriteAll
    cases he : embOf h
    · exact ih st
    · rw [ih _, cacheUpsert_chunks]

/-- The provider identity of a cache row matches the syncing manager. -/
def cacheIdent (ctx : SyncCtx) (r : CacheRow) : Prop :=
  r.provider = ctx.providerId ∧ r.model = ctx.providerModel ∧ r.providerKey = ctx.providerKey

theorem cacheWriteAll_ident (ctx : SyncCtx) (embOf : String → Option (List Rat)) :
    ∀ (hs : List String) (st : Store),
      (∀ r ∈ st.cache, cacheIdent ctx r) →
      ∀ r ∈ (cacheWriteAll ctx embOf hs st).cache, cacheIdent ctx r := by
  intro hs
  induction hs with
  | nil => intro st h; exact h
  | cons x t ih =>
    intro st h
    unfold cacheWriteAll
    cases he : embOf x
    · exact ih st h
    · refine ih _ ?_
      intro r hr
      rcases cacheUpsert_mem _ _ _ hr with hmem | hrow
      · exact h r hmem
      · subst hrow
        exact ⟨rfl, rfl, rfl⟩

theorem embedChunks_files (st : Store) (ctx : SyncCtx) (cs : List MemoryChunkT) :
    (embedChunks st ctx cs).1.files = st.files := by
  unfold embedChunks
  dsimp only
  split
  · split <;> rfl
  · split
    · rfl
    · split <;> exact cacheWriteAll_files _ _ _ _

theorem embedChunks_chunks (st : Store) (ctx : SyncCtx) (cs : List MemoryChunkT) :
    (embedChunks st ctx cs).1.chunks = st.chunks := by
  unfold embedChunks
  dsimp only
  split
  · split <;> rfl
  · split
    · rfl
    · split <;> exact cacheWriteAll_chunks _ _ _ _

theorem embedChunks_ident (st : Store) (ctx : SyncCtx) (cs : List MemoryChunkT)
    (h : ∀ r ∈ st.cache, cacheIdent ctx r) :
    ∀ r ∈ (embedChunks st ctx cs).1.cache, cacheIdent ctx r := by
  unfold embedChunks
  dsimp only
  split
  · split <;> exact h
  · split
    · exact h
    · split <;> exact cacheWriteAll_ident _ _ _ _ h

theorem buildSessionChunks_messageId (ctx : SyncCtx) (entry : GenericEntry) (uid : String) :
    ∀ (i : Nat) (msgs : List SessionMsg),
      ∀ pc ∈ buildSessionChunks ctx entry uid i msgs, pc.messageId.isSome = true := by
  intro i msgs
  induction msgs generalizing i with
  | nil => intro pc hpc; simp [buildSessionChunks] at hpc
  | cons m ms ih =>
    intro pc hpc
    unfold buildSessionChunks at hpc
    rcases List.mem_append.mp hpc with h | h
    · obtain ⟨c, _, hc⟩ := List.mem_map.mp h
      rw [← hc]
      rfl
    · exact ih (i + 1) pc h

theorem chunkRowsFor_mem (ctx : SyncCtx) (entry : GenericEntry) (source : Source)
    (isSession : Bool) :
    ∀ (i : Nat) (ps : List PendingChunk) (es : List (List Rat)),
      ∀ c ∈ chunkRowsFor ctx entry source isSession i ps es,
        c.path = entry.path ∧ c.source = source ∧ c.model = ctx.providerModel ∧
          c.sessionKey = (if isSession then entry.sessionKey else none) ∧
          ∃ pc ∈ ps, c.messageId = pc.messageId := by
  intro i ps
  induction ps generalizing i with
  | nil => intro es c hc; simp [chunkRowsFor] at hc
  | cons pc pt ih =>
    intro es c hc
    cases es with
    | nil => simp [chunkRowsFor] at hc
    | cons emb et =>
      unfold chunkRowsFor at hc
      rcases List.mem_cons.mp hc with h | h
      · subst h
        exact ⟨rfl, rfl, rfl, rfl, pc, List.mem_cons_self _ _, rfl⟩
      · obtain ⟨hp, hs, hm, hk, pc', hpc', hmid⟩ := ih (i + 1) et c h
        exact ⟨hp, hs, hm, hk, pc', List.mem_cons_of_mem _ hpc', hmid⟩

/-- A failed `indexEntry` leaves `memory_files` and `memory_chunks`
untouched (the error is raised before the transaction or after its
rollback; only cache writes can have happened). -/
theorem indexEntry_error_preserves (st : Store) (ctx : SyncCtx) (entry : GenericEntry)
    (source : Source) (st' : Store) (err : String)
    (h : indexEntry st ctx entry source = (st', some err)) :
    st'.files = st.files ∧ st'.chunks = st.chunks := by
  unfold indexEntry at h
  dsimp only at h
  split at h
  · simp at h
  · rcases hEC : embedChunks st ctx
        ((buildPendingChunks ctx entry
          (source == Source.sessions && entry.messages.isSome)).map
          (fun c => c.toMemoryChunkT)) with ⟨st1, res⟩
    rw [hEC] at h
    have hf := embedChunks_files st ctx ((buildPendingChunks ctx entry
          (source == Source.sessions && entry.messages.isSome)).map
          (fun c => c.toMemoryChunkT))
    have hcnk := embedChunks_chunks st ctx ((buildPendingChunks ctx entry
          (source == Source.sessions && entry.messages.isSome)).map
          (fun c => c.toMemoryChunkT))
    rw [hEC] at hf hcnk
    dsimp only at hf hcnk
    cases res with
    | error e =>
      dsimp only at h
      simp only [Prod.mk.injEq] at h
      rw [← h.1]
      exact ⟨hf, hcnk⟩
    | ok embs =>
      dsimp only at h
      split at h
      · simp at h
      · split at h
        · simp only [Prod.mk.injEq] at h
          rw [← h.1]
          exact ⟨hf, hcnk⟩
        · simp at h

/-- A successful or failed `indexEntry` only ever adds chunk rows for
its own entry path and the current model. -/
theorem indexEntry_chunks_mem (st : Store) (ctx : SyncCtx) (entry : GenericEntry)
    (source : Source) :
    ∀ c ∈ (indexEntry st ctx entry source).1.chunks,
      c ∈ st.chunks ∨ (c.path = entry.path ∧ c.model = ctx.providerModel) := by
  intro c hc
  unfold indexEntry at hc
  dsimp only at hc
  split at hc
  · exact Or.inl hc
  · rcases hEC : embedChunks st ctx
        ((buildPendingChunks ctx entry
          (source == Source.sessions && entry.messages.isSome)).map
          (fun c => c.toMemoryChunkT)) with ⟨st1, res⟩
    rw [hEC] at hc
    have hcnk := embedChunks_chunks st ctx ((buildPendingChunks ctx entry
          (source == Source.sessions && entry.messages.isSome)).map
          (fun c => c.toMemoryChunkT))
    rw [hEC] at hcnk
    dsimp only at hcnk
    cases res with
    | error e => exact Or.inl (hcnk ▸ hc)
    | ok embs =>
      dsimp only at hc
      split at hc
      · exact Or.inl (hcnk ▸ hc)
      · split at hc
        · exact Or.inl (hcnk ▸ hc)
        · dsimp only at hc
          rcases List.mem_append.mp hc with h | h
          · exact Or.inl (hcnk ▸ List.mem_of_mem_filter h)
          · obtain ⟨hp, _, hm, _, _⟩ := chunkRowsFor_mem ctx entry source _ 0 _ _ c h
            exact Or.inr ⟨hp, hm⟩

theorem indexEntry_cache_ident (st : Store) (ctx : SyncCtx) (entry : GenericEntry)
    (source : Source) (h : ∀ r ∈ st.cache, cacheIdent ctx r) :
    ∀ r ∈ (indexEntry st ctx entry source).1.cache, cacheIdent ctx r := by
  intro r hr
  unfold indexEntry at hr
  dsimp only at hr
  split at hr
  · exact h r hr
  · rcases hEC : embedChunks st ctx
        ((buildPendingChunks ctx entry
          (source == Source.sessions && entry.messages.isSome)).map
          (fun c => c.toMemoryChunkT)) with ⟨st1, res⟩
    rw [hEC] at hr
    have hid := embedChunks_ident st ctx ((buildPendingChunks ctx entry
          (source == Source.sessions && entry.messages.isSome)).map
          (fun c => c.toMemoryChunkT)) h
    rw [hEC] at hid
    dsimp only at hid
    cases res with
    | error e => exact hid r hr
    | ok embs =>
      dsimp only at hr
      split at hr
      · exact hid r hr
      · split at hr
        · exact hid r hr
        · exact hid r hr

theorem runTasks_cons (ctx : SyncCtx) (source : Source) (st : Store) (e : GenericEntry)
    (rest : List GenericEntry) :
    runTasks ctx source st (e :: rest) =
      match indexEntry st ctx e source with
      | (st', none) => runTasks ctx source st' rest
      | (st', some err) => (st', some err) := rfl

theorem runTasks_append (ctx : SyncCtx) (source : Source) :
    ∀ (l1 l2 : List GenericEntry) (st : Store),
      runTasks ctx source st (l1 ++ l2) =
        match runTasks ctx source st l1 with
        | (st', none) => runTasks ctx source st' l2
        | (st', some e) => (st', some e) := by
  intro l1
  induction l1 with
  | nil => intro l2 st; rfl
  | cons e rest ih =>
    intro l2 st
    simp only [List.cons_append, runTasks_cons]
    rcases hie : indexEntry st ctx e source with ⟨st', res⟩
    cases res with
    | none =>
      dsimp only
      exact ih l2 st'
    | some err => rfl

theorem runTasks_chunks_mem (ctx : SyncCtx) (source : Source) :
    ∀ (tasks : List GenericEntry) (st : Store),
      ∀ c ∈ (runTasks ctx source st tasks).1.chunks,
        c ∈ st.chunks ∨ ∃ e ∈ tasks, c.path = e.path ∧ c.model = ctx.providerModel := by
  intro tasks
  induction tasks with
  | nil => intro st c hc; exact Or.inl hc
  | cons e rest ih =>
    intro st c hc
    unfold runTasks at hc
    rcases hie : indexEntry st ctx e source with ⟨st', res⟩
    rw [hie] at hc
    have hmem := indexEntry_chunks_mem st ctx e source
    rw [hie] at hmem
    dsimp only at hmem
    cases res with
    | none =>
      rcases ih st' c hc with h | ⟨e', he', hp⟩
      · rcases hmem c h with h2 | h2
        · exact Or.inl h2
        · exact Or.inr ⟨e, List.mem_cons_self _ _, h2⟩
      · exact Or.inr ⟨e', List.mem_cons_of_mem _ he', hp⟩
    | some err =>
      rcases hmem c hc with h2 | h2
      · exact Or.inl h2
      · exact Or.inr ⟨e, List.mem_cons_self _ _, h2⟩

theorem runTasks_cache_ident (ctx : SyncCtx) (source : Source) :
    ∀ (tasks : List GenericEntry) (st : Store),
      (∀ r ∈ st.cache, cacheIdent ctx r) →
      ∀ r ∈ (runTasks ctx source st tasks).1.cache, cacheIdent ctx r := by
  intro tasks
  induction tasks with
  | nil => intro st h; exact h
  | cons e rest ih =>
    intro st h
    unfold runTasks
    rcases hie : indexEntry st ctx e source with ⟨st', res⟩
    have hid := indexEntry_cache_ident st ctx e source h
    rw [hie] at hid
    dsimp only at hid
    cases res with
    | none => exact ih st' hid
    | some err => exact hid

/-! ## Claim theorems about the indexer -/

/-- C4 (amended): every chunk row `indexEntry` newly writes for a
session entry carries `source = 'sessions'`, a non-null `message_id`,
and `session_key` equal to the entry's (possibly absent) session key —
so the `session_key` column is null exactly when no session identity
was resolved for the transcript. -/
theorem session_rows_have_message_id (st : Store) (ctx : SyncCtx) (entry : GenericEntry)
    (hmsgs : entry.messages.isSome = true) :
    ∀ c ∈ (indexEntry st ctx entry Source.sessions).1.chunks, c ∉ st.chunks →
      c.source = Source.sessions ∧ c.messageId.isSome = true ∧
        c.sessionKey = entry.sessionKey := by
  intro c hc hnew
  unfold indexEntry at hc
  dsimp only at hc
  rw [hmsgs] at hc
  simp only [Bool.and_true, beq_self_eq_true] at hc
  split at hc
  · exact absurd hc hnew
  · rcases hEC : embedChunks st ctx
        ((buildPendingChunks ctx entry true).map (fun c => c.toMemoryChunkT)) with ⟨st1, res⟩
    rw [hEC] at hc
    have hcnk := embedChunks_chunks st ctx
      ((buildPendingChunks ctx entry true).map (fun c => c.toMemoryChunkT))
    rw [hEC] at hcnk
    dsimp only at hcnk
    cases res with
    | error e => exact absurd (hcnk ▸ hc) hnew
    | ok embs =>
      dsimp only at hc
      split at hc
      · exact absurd (hcnk ▸ hc) hnew
      · split at hc
        · exact absurd (hcnk ▸ hc) hnew
        · dsimp only at hc
          rcases List.mem_append.mp hc with h | h
          · exact absurd (hcnk ▸ List.mem_of_mem_filter h) hnew
          · obtain ⟨_, hsrc, _, hk, pc, hpc, hmid⟩ :=
              chunkRowsFor_mem ctx entry Source.sessions true 0 _ _ c h
            refine ⟨hsrc, ?_, by simpa using hk⟩
            rw [hmid]
            have hb : buildPendingChunks ctx entry true =
                buildSessionChunks ctx entry (entry.userId.getD "unknown") 0
                  (entry.messages.getD []) := by
              unfold buildPendingChunks
              simp
            rw [hb] at hpc
            exact buildSessionChunks_messageId ctx entry _ 0 _ pc hpc

/-- An indexer context whose provider fails on the text `"boom"`. -/
def ctxF : SyncCtx :=
  { agentId := "a", providerId := "p", providerModel := "m", providerKey := "K1",
    chunkTokens := 100, chunkOverlap := 0, cacheEnabled := true,
    chunker := fun s => [{ startLine := 1, endLine := 1, text := s, hash := "h-" ++ s }],
    embed := fun ts =>
      if ts.contains "boom" then Except.error "provider failure"
      else Except.ok (ts.map (fun _ => [1])),
    now := 100 }

/-- The empty store. -/
def stEmpty : Store := { files := [], chunks := [], cache := [], meta := none }

/-- A session transcript whose identity was not resolved
(`sessionKey = none`). -/
def entrySess : GenericEntry :=
  { path := "sessions/s1.jsonl", hash := "hs", mtimeMs := 5, size := 3,
    content := "User: hi",
    messages := some [{ role := MsgRole.user, text := "hi", createdAt := none }] }

/-- C4 (counterexample to the claim as stated): indexing a session
transcript for which no session identity was resolved succeeds and
writes a chunk row with `source = 'sessions'` and a null
`session_key`. -/
theorem session_rows_null_key_counterexample :
    (indexEntry stEmpty ctxF entrySess Source.sessions).2 = none ∧
    ((indexEntry stEmpty ctxF entrySess Source.sessions).1.chunks.any
      (fun c => c.source == Source.sessions && c.sessionKey == none)) = true := by
  constructor
  · rfl
  · decide

/-- The single chunk row written for `entrySess`. -/
def cW : ChunkRow :=
  { id := "sessions/s1.jsonl#chunk:0", path := "sessions/s1.jsonl",
    source := Source.sessions, sessionKey := none, role := "user", actorType := "human",
    actorId := "unknown", messageId := some "sessions/s1.jsonl#msg:0",
    messageCreatedAt := some 100, startLine := 1, endLine := 1, hash := "h-hi",
    model := "m", text := "hi", embedding := [1], createdAt := some 100,
    updatedAt := 100 }

theorem session_rows_have_message_id_witness :
    cW.source = Source.sessions ∧ cW.messageId.isSome = true ∧
      cW.sessionKey = entrySess.sessionKey :=
  session_rows_have_message_id stEmpty ctxF entrySess (by decide) cW (by decide)
    (by decide)

/-- C5 (amended): when indexing one file fails, the failing file's
rows keep their prior state (per-file rollback), writes already
committed for earlier files persist — but the error propagates out of
the task loop, so the remaining files of the pass are not indexed. -/
theorem per_file_failure_aborts_pass (ctx : SyncCtx) (source : Source) (st : Store)
    (e : GenericEntry) (rest : List GenericEntry) (err : String)
    (h : (indexEntry st ctx e source).2 = some err) :
    runTasks ctx source st (e :: rest) = ((indexEntry st ctx e source).1, some err) ∧
    (indexEntry st ctx e source).1.files = st.files ∧
    (indexEntry st ctx e source).1.chunks = st.chunks ∧
    ∀ (done : List GenericEntry) (st0 : Store),
      runTasks ctx source st0 done = (st, none) →
      runTasks ctx source st0 (done ++ e :: rest) =
        ((indexEntry st ctx e source).1, some err) := by
  rcases hie : indexEntry st ctx e source with ⟨st', res⟩
  rw [hie] at h
  dsimp only at h
  subst h
  have hpres := indexEntry_error_preserves st ctx e source st' err hie
  have hrun : runTasks ctx source st (e :: rest) = (st', some err) := by
    unfold runTasks
    rw [hie]
  refine ⟨hrun, hpres.1, hpres.2, ?_⟩
  intro done st0 hdone
  rw [runTasks_append ctx source done (e :: rest) st0, hdone]
  exact hrun

/-- Three memory files: the second fails to embed, the third is due
for indexing. -/
def entryA : GenericEntry :=
  { path := "memory/a.md", hash := "ha", mtimeMs := 1, size := 5, content := "alpha" }

def entryB : GenericEntry :=
  { path := "memory/b.md", hash := "hb", mtimeMs := 2, size := 4, content := "boom" }

def entryC : GenericEntry :=
  { path := "memory/c.md", hash := "hc", mtimeMs := 3, size := 5, content := "gamma" }

/-- C5 (counterexample to the claim as stated): in a pass over three
changed files where the second file's embedding call fails, the first
file's chunks are committed and the second file stays clean — but the
pass aborts with the error and the third file, although due for
indexing, is never indexed: the sync does not continue with the next
file. -/
theorem sync_does_not_continue_counterexample :
    (syncEntries stEmpty ctxF [entryA, entryB, entryC] Source.memory).2 =
        some "provider failure" ∧
    ((syncEntries stEmpty ctxF [entryA, entryB, entryC] Source.memory).1.chunks.any
      (fun c => c.path == "memory/a.md")) = true ∧
    ((syncEntries stEmpty ctxF [entryA, entryB, entryC] Source.memory).1.chunks.all
      (fun c => !(c.path == "memory/c.md"))) = true ∧
    (changedEntries stEmpty Source.memory [entryA, entryB, entryC]).contains entryC =
        true := by
  refine ⟨?_, ?_, ?_, ?_⟩ <;> decide

theorem per_file_failure_aborts_pass_witness :
    runTasks ctxF Source.memory stEmpty (entryB :: [entryC]) =
        ((indexEntry stEmpty ctxF entryB Source.memory).1, some "provider failure") ∧
    (indexEntry stEmpty ctxF entryB Source.memory).1.files = stEmpty.files ∧
    (indexEntry stEmpty ctxF entryB Source.memory).1.chunks = stEmpty.chunks ∧
    ∀ (done : List GenericEntry) (st0 : Store),
      runTasks ctxF Source.memory st0 done = (stEmpty, none) →
      runTasks ctxF Source.memory st0 (done ++ entryB :: [entryC]) =
        ((indexEntry stEmpty ctxF entryB Source.memory).1, some "provider failure") :=
  per_file_failure_aborts_pass ctxF Source.memory stEmpty entryB [entryC]
    "provider failure" (by decide)

theorem refreshDimsMeta_cache (meta : Option MetaRow) (base : MetaRow) (st2 : Store) :
    (refreshDimsMeta meta base st2).cache = st2.cache := by
  unfold refreshDimsMeta
  split
  · split
    · rfl
    · split <;> rfl
  · rfl

theorem refreshDimsMeta_chunks (meta : Option MetaRow) (base : MetaRow) (st2 : Store) :
    (refreshDimsMeta meta base st2).chunks = st2.chunks := by
  unfold refreshDimsMeta
  split
  · split
    · rfl
    · split <;> rfl
  · rfl

/-- Starting from a store with no cache rows and no chunk rows, a sync
pass only produces cache rows with the current provider identity and
chunk rows for the listed entries with the current model. -/
theorem syncEntries_from_clear (ctx : SyncCtx) (source : Source)
    (entries : List GenericEntry) (stc : Store)
    (hcache : stc.cache = []) (hchunks : stc.chunks = []) :
    (∀ r ∈ (syncEntries stc ctx entries source).1.cache, cacheIdent ctx r) ∧
    (∀ c ∈ (syncEntries stc ctx entries source).1.chunks,
      (∃ e ∈ entries, c.path = e.path) ∧ c.model = ctx.providerModel) := by
  unfold syncEntries
  constructor
  · apply runTasks_cache_ident
    intro r hr
    have h1 : r ∈ stc.cache := hr
    rw [hcache] at h1
    simp at h1
  · intro c hc
    rcases runTasks_chunks_mem ctx source _ _ c hc with h | ⟨e, he, hp, hmdl⟩
    · have h1 : c ∈ stc.chunks := List.mem_of_mem_filter h
      rw [hchunks] at h1
      simp at h1
    · exact ⟨⟨e, List.mem_of_mem_filter he, hp⟩, hmdl⟩

/-- The tail of `runSync` (entry sync followed by the optional meta
refresh) keeps the cache/chunk invariants established from a cleared
store. -/
theorem syncTail_inv (ctx : SyncCtx) (source : Source) (entries : List GenericEntry)
    (meta : Option MetaRow) (base : MetaRow) (stc : Store)
    (hcache : stc.cache = []) (hchunks : stc.chunks = []) :
    (∀ r ∈ (match syncEntries stc ctx entries source with
            | (st2, some e) => (st2, some e)
            | (st2, none) => (refreshDimsMeta meta base st2, none)).1.cache,
        cacheIdent ctx r) ∧
    (∀ c ∈ (match syncEntries stc ctx entries source with
            | (st2, some e) => (st2, some e)
            | (st2, none) => (refreshDimsMeta meta base st2, none)).1.chunks,
        (∃ e ∈ entries, c.path = e.path) ∧ c.model = ctx.providerModel) := by
  rcases hs : syncEntries stc ctx entries source with ⟨st2, res⟩
  have hinv := syncEntries_from_clear ctx source entries stc hcache hchunks
  rw [hs] at hinv
  dsimp only at hinv
  cases res with
  | some e => exact hinv
  | none =>
    dsimp only
    constructor
    · intro r hr
      rw [refreshDimsMeta_cache] at hr
      exact hinv.1 r hr
    · intro c hc
      rw [refreshDimsMeta_chunks] at hc
      exact hinv.2 c hc

/-- C6 (amended): when the stored meta's provider key differs from the
current provider fingerprint, the next sync clears the whole index —
including every embedding-cache row, so the rows recorded under the
original fingerprint are dropped, not retained — and re-embeds from
scratch: afterwards every cache row carries the current
`(provider, model, provider_key)` and every chunk row belongs to a
listed entry under the current model. -/
theorem fingerprint_change_forces_rebuild (st : Store) (ctx : SyncCtx)
    (entries : List GenericEntry) (source : Source) (m : MetaRow)
    (hm : st.meta = some m) (hkey : m.providerKey ≠ some ctx.providerKey) :
    (∀ r ∈ (runSync st ctx entries source).1.cache, cacheIdent ctx r) ∧
    (∀ c ∈ (runSync st ctx entries source).1.chunks,
      (∃ e ∈ entries, c.path = e.path) ∧ c.model = ctx.providerModel) := by
  have hbeq : (m.providerKey == some ctx.providerKey) = false :=
    beq_eq_false_iff_ne.mpr hkey
  have hneed : ∀ d, needsFullReindex (some m) (baseMetaFor ctx d) = true := by
    intro d
    unfold needsFullReindex baseMetaFor
    simp [hbeq]
  unfold runSync
  dsimp only
  rw [hm]
  dsimp only
  rw [if_pos (hneed _)]
  exact syncTail_inv ctx source entries (some m) _ _ rfl rfl

/-- The same manager context under a changed provider fingerprint. -/
def ctx2 : SyncCtx := { ctxF with providerKey := "K2" }

/-- The store after indexing `entryA` under fingerprint `K1`. -/
def syncOnce : Store := (runSync stEmpty ctxF [entryA] Source.memory).1

/-- The store after the subsequent sync under fingerprint `K2`. -/
def syncTwice : Store := (runSync syncOnce ctx2 [entryA] Source.memory).1

/-- C6 (counterexample to the claim as stated): after indexing under
fingerprint `K1` the cache holds a `K1` row; re-syncing the same
content under fingerprint `K2` triggers new embedding work and new
`K2` cache rows, but the `K1` rows are deleted by `clearIndex` — the
original cache rows do not remain. -/
theorem fingerprint_change_drops_cache_counterexample :
    (syncOnce.cache.any (fun r => r.providerKey == "K1")) = true ∧
    (syncTwice.cache.any (fun r => r.providerKey == "K2")) = true ∧
    (runSync syncOnce ctx2 [entryA] Source.memory).2 = none ∧
    (syncTwice.cache.any (fun r => r.providerKey == "K1")) = false := by
  refine ⟨?_, ?_, ?_, ?_⟩ <;> decide

/-- The meta row stored by the first sync. -/
def metaW : MetaRow :=
  { model := "m", provider := "p", providerKey := some "K1", chunkTokens := 100,
    chunkOverlap := 0, vectorDims := some 1 }

theorem fingerprint_change_forces_rebuild_witness :
    (∀ r ∈ (runSync syncOnce ctx2 [entryA] Source.memory).1.cache, cacheIdent ctx2 r) ∧
    (∀ c ∈ (runSync syncOnce ctx2 [entryA] Source.memory).1.chunks,
      (∃ e ∈ [entryA], c.path = e.path) ∧ c.model = ctx2.providerModel) :=
  fingerprint_change_forces_rebuild syncOnce ctx2 [entryA] Source.memory metaW
    (by decide) (by decide)

end OpenClaw
